import Mathlib

/-!
Verification of the SmartMeetingScheduler core (smart_scheduler.py and the
search logic of app.py) against its specification.

The embedding translates the Python source into Lean:
* `time_to_minutes` (smart_scheduler.py lines 8-31), including a model of
  CPython's `datetime.strptime` for the four format strings tried by the
  code, and of `float(...)` literal parsing for the numeric fallback;
* `to_hhmm` (app.py lines 31-38);
* `build_busy_map` (smart_scheduler.py lines 33-49), with `raise ValueError`
  rendered as `Except.error`;
* the slot search and the alternative (expanded-window) search of
  `process` (app.py lines 189-232).

Machine integers are `Int` (Python ints are unbounded, so no wrap-around is
modelled); Python's exact float arithmetic on half-integer midpoints is
modelled by `Rat` (all quantities appearing there are halves of integers,
which binary floating point represents exactly).
-/

namespace SMS

/-! ### Characters and digits -/

def isDigitC (c : Char) : Bool := '0' ≤ c && c ≤ '9'

def digVal (c : Char) : Nat := c.toNat - 48

/-- Decimal digit character for `n ≤ 9`. -/
def digitChar (n : Nat) : Char :=
  match n with
  | 0 => '0' | 1 => '1' | 2 => '2' | 3 => '3' | 4 => '4'
  | 5 => '5' | 6 => '6' | 7 => '7' | 8 => '8' | _ => '9'

/-- Python whitespace (ASCII fragment): the characters stripped by
`str.strip()` and matched by the regex class `\s`. -/
def isPyWs (c : Char) : Bool :=
  c = ' ' || c = '\t' || c = '\n' || c = '\r' || c = Char.ofNat 11 || c = Char.ofNat 12

/-- Model of Python `str.strip()` on a character list. -/
def pyStrip (l : List Char) : List Char :=
  ((l.dropWhile isPyWs).reverse.dropWhile isPyWs).reverse

/-- Decimal digits of a natural number (structural recursion on a fuel
argument, so that the kernel can evaluate it; `fuel = n` always suffices
because the value shrinks by a factor of ten each step). -/
def natDigitsFuel : Nat → Nat → List Char
  | 0, n => [digitChar n]
  | fuel + 1, n =>
    if n < 10 then [digitChar n]
    else natDigitsFuel fuel (n / 10) ++ [digitChar (n % 10)]

/-- Decimal digits of a natural number, as Python `str` renders it. -/
def natDigits (n : Nat) : List Char := natDigitsFuel n n

/-- Python `str` of an integer. -/
def intDigits (i : Int) : List Char :=
  if i < 0 then '-' :: natDigits (-i).toNat else natDigits i.toNat

/-- Python `"{:02d}".format i`: pad with a leading zero to width 2. -/
def pad2 (i : Int) : List Char :=
  if (intDigits i).length < 2 then '0' :: intDigits i else intDigits i

/-! ### `datetime.strptime`, restricted to the four formats used

CPython's `_strptime` compiles a format string into one regex (with
`re.IGNORECASE`) and requires it to match the whole input.  The regex
fragments for the directives used here are:

* `%I` → `1[0-2]|0[1-9]|[1-9]`
* `%H` → `2[0-3]|[0-1]\d|\d`
* `%M` → `[0-5]\d|\d`
* `%S` → `6[0-1]|[0-5]\d|\d`
* `%p` → `AM|PM` (case-insensitive)
* a whitespace run in the format → `\s+`

Each field function below returns the list of possible (value, rest-of-input)
splits in the order the regex alternation tries them; the matchers then
backtrack through those lists exactly as the regex engine does. -/

def fieldI : List Char → List (Nat × List Char)
  | [] => []
  | [c] => if '1' ≤ c ∧ c ≤ '9' then [(digVal c, [])] else []
  | c1 :: c2 :: rest =>
    (if c1 = '1' ∧ '0' ≤ c2 ∧ c2 ≤ '2' then [(10 + digVal c2, rest)] else [])
    ++ (if c1 = '0' ∧ '1' ≤ c2 ∧ c2 ≤ '9' then [(digVal c2, rest)] else [])
    ++ (if '1' ≤ c1 ∧ c1 ≤ '9' then [(digVal c1, c2 :: rest)] else [])

def fieldH : List Char → List (Nat × List Char)
  | [] => []
  | [c] => if '0' ≤ c ∧ c ≤ '9' then [(digVal c, [])] else []
  | c1 :: c2 :: rest =>
    (if c1 = '2' ∧ '0' ≤ c2 ∧ c2 ≤ '3' then [(20 + digVal c2, rest)] else [])
    ++ (if ('0' ≤ c1 ∧ c1 ≤ '1') ∧ ('0' ≤ c2 ∧ c2 ≤ '9') then
          [(10 * digVal c1 + digVal c2, rest)] else [])
    ++ (if '0' ≤ c1 ∧ c1 ≤ '9' then [(digVal c1, c2 :: rest)] else [])

def fieldM : List Char → List (Nat × List Char)
  | [] => []
  | [c] => if '0' ≤ c ∧ c ≤ '9' then [(digVal c, [])] else []
  | c1 :: c2 :: rest =>
    (if ('0' ≤ c1 ∧ c1 ≤ '5') ∧ ('0' ≤ c2 ∧ c2 ≤ '9') then
          [(10 * digVal c1 + digVal c2, rest)] else [])
    ++ (if '0' ≤ c1 ∧ c1 ≤ '9' then [(digVal c1, c2 :: rest)] else [])

def fieldS : List Char → List (Nat × List Char)
  | [] => []
  | [c] => if '0' ≤ c ∧ c ≤ '9' then [(digVal c, [])] else []
  | c1 :: c2 :: rest =>
    (if c1 = '6' ∧ '0' ≤ c2 ∧ c2 ≤ '1' then [(60 + digVal c2, rest)] else [])
    ++ (if ('0' ≤ c1 ∧ c1 ≤ '5') ∧ ('0' ≤ c2 ∧ c2 ≤ '9') then
          [(10 * digVal c1 + digVal c2, rest)] else [])
    ++ (if '0' ≤ c1 ∧ c1 ≤ '9' then [(digVal c1, c2 :: rest)] else [])

def lowerChar (c : Char) : Char :=
  if 'A' ≤ c ∧ c ≤ 'Z' then Char.ofNat (c.toNat + 32) else c

/-- `%p`: `AM|PM`, case-insensitive; `true` means PM. -/
def fieldP : List Char → List (Bool × List Char)
  | c1 :: c2 :: rest =>
    if lowerChar c2 = 'm' then
      (if lowerChar c1 = 'a' then [(false, rest)] else [])
      ++ (if lowerChar c1 = 'p' then [(true, rest)] else [])
    else []
  | _ => []

/-- `\s+`: possible rests after consuming at least one whitespace character,
longest consumption first (the greedy order regex backtracking uses). -/
def wsPlus : List Char → List (List Char)
  | [] => []
  | c :: rest => if isPyWs c then wsPlus rest ++ [rest] else []

/-- Backtracking through the alternatives of one field. -/
def tryCands (cands : List (α × List Char)) (k : α → List Char → Option β) : Option β :=
  match cands with
  | [] => none
  | (v, r) :: more =>
    match k v r with
    | some b => some b
    | none => tryCands more k

/-- Backtracking through the possible whitespace consumptions. -/
def tryRests (rs : List (List Char)) (k : List Char → Option β) : Option β :=
  match rs with
  | [] => none
  | r :: more =>
    match k r with
    | some b => some b
    | none => tryRests more k

/-- `_strptime`'s 12-hour conversion: with `%p` = PM an hour other than 12
gains 12; with AM the hour 12 becomes 0. -/
def adjust12 (h : Nat) (pm : Bool) : Nat :=
  if pm then (if h = 12 then 12 else h + 12)
  else (if h = 12 then 0 else h)

/-- Shared tail of the two `%p` formats: consume `AM`/`PM`, require the end
of the input, and apply the 12-hour conversion. -/
def ampmTail (h m : Nat) (r : List Char) : Option Nat :=
  tryCands (fieldP r) fun pm r5 =>
    if r5 = [] then some (adjust12 h pm * 60 + m) else none

/-- `"%I:%M %p"` after the minute: the format's blank matches `\s+`. -/
def impAfterM (h m : Nat) (r3 : List Char) : Option Nat :=
  tryRests (wsPlus r3) (ampmTail h m)

/-- `"%I:%M %p"` after the hour: a literal `:` then the minute field. -/
def impAfterI (h : Nat) (r1 : List Char) : Option Nat :=
  match r1 with
  | ':' :: r2 => tryCands (fieldM r2) (impAfterM h)
  | _ => none

/-- Match `"%I:%M %p"` against the whole input; result is minutes since
midnight (`hour * 60 + minute`, as `time_to_minutes` computes it). -/
def matchIMp (cs : List Char) : Option Nat :=
  tryCands (fieldI cs) impAfterI

/-- `"%I:%M:%S %p"` after the (discarded) seconds field. -/
def imspAfterS (h m : Nat) (_s : Nat) (r5 : List Char) : Option Nat :=
  tryRests (wsPlus r5) (ampmTail h m)

/-- `"%I:%M:%S %p"` after the minute: a literal `:` then the seconds. -/
def imspAfterM (h m : Nat) (r3 : List Char) : Option Nat :=
  match r3 with
  | ':' :: r4 => tryCands (fieldS r4) (imspAfterS h m)
  | _ => none

/-- `"%I:%M:%S %p"` after the hour. -/
def imspAfterI (h : Nat) (r1 : List Char) : Option Nat :=
  match r1 with
  | ':' :: r2 => tryCands (fieldM r2) (imspAfterM h)
  | _ => none

/-- Match `"%I:%M:%S %p"` (the parsed seconds are discarded by
`time_to_minutes`, which only reads `.hour` and `.minute`). -/
def matchIMSp (cs : List Char) : Option Nat :=
  tryCands (fieldI cs) imspAfterI

/-- `"%H:%M"` after the minute: the input must be exhausted. -/
def hmAfterM (h m : Nat) (r3 : List Char) : Option Nat :=
  if r3 = [] then some (h * 60 + m) else none

/-- `"%H:%M"` after the hour. -/
def hmAfterH (h : Nat) (r1 : List Char) : Option Nat :=
  match r1 with
  | ':' :: r2 => tryCands (fieldM r2) (hmAfterM h)
  | _ => none

/-- Match `"%H:%M"`. -/
def matchHM (cs : List Char) : Option Nat :=
  tryCands (fieldH cs) hmAfterH

/-- `"%H:%M:%S"` after the (discarded) seconds field. -/
def hmsAfterS (h m : Nat) (_s : Nat) (r5 : List Char) : Option Nat :=
  if r5 = [] then some (h * 60 + m) else none

/-- `"%H:%M:%S"` after the minute. -/
def hmsAfterM (h m : Nat) (r3 : List Char) : Option Nat :=
  match r3 with
  | ':' :: r4 => tryCands (fieldS r4) (hmsAfterS h m)
  | _ => none

/-- `"%H:%M:%S"` after the hour. -/
def hmsAfterH (h : Nat) (r1 : List Char) : Option Nat :=
  match r1 with
  | ':' :: r2 => tryCands (fieldM r2) (hmsAfterM h)
  | _ => none

/-- Match `"%H:%M:%S"` (seconds again discarded). -/
def matchHMS (cs : List Char) : Option Nat :=
  tryCands (fieldH cs) hmsAfterH

/-- The `for fmt in (...)` loop of `time_to_minutes`: try the four formats
in order, first success wins. -/
def strptimeChain (cs : List Char) : Option Nat :=
  match matchIMp cs with
  | some v => some v
  | none =>
    match matchIMSp cs with
    | some v => some v
    | none =>
      match matchHM cs with
      | some v => some v
      | none => matchHMS cs

/-! ### Python `float` literals and `int` truncation -/

def digitsToNat (l : List Char) : Nat :=
  l.foldl (fun a c => 10 * a + digVal c) 0

/-- Model of Python `float(string)` for finite decimal literals
(optional surrounding whitespace, optional sign, digits with an optional
decimal point, optional exponent).  `inf`, `nan`, and digit-group
underscores are outside the modelled grammar; on every such input the code's
`int(f * 1440)` either raises (absorbed by the bare `except`) or is never
produced by the schedule data, and no claim depends on them. -/
def pyFloat (l0 : List Char) : Option Rat :=
  let l := pyStrip l0
  let sgnRest : Rat × List Char :=
    match l with
    | '+' :: r => (1, r)
    | '-' :: r => (-1, r)
    | _ => (1, l)
  let ip := sgnRest.2.takeWhile isDigitC
  let l2 := sgnRest.2.dropWhile isDigitC
  let fpRest : List Char × List Char :=
    match l2 with
    | '.' :: r => (r.takeWhile isDigitC, r.dropWhile isDigitC)
    | _ => ([], l2)
  let fp := fpRest.1
  if ip = [] ∧ fp = [] then none
  else
    let mant : Rat := sgnRest.1 *
      ((digitsToNat ip : Rat) + (digitsToNat fp : Rat) / ((10 : Rat) ^ fp.length))
    match fpRest.2 with
    | [] => some mant
    | c :: r =>
      if c = 'e' ∨ c = 'E' then
        let esgnRest : Int × List Char :=
          match r with
          | '+' :: rr => (1, rr)
          | '-' :: rr => (-1, rr)
          | _ => (1, r)
        let ed := esgnRest.2.takeWhile isDigitC
        if ed = [] ∨ esgnRest.2.dropWhile isDigitC ≠ [] then none
        else some (mant * (10 : Rat) ^ (esgnRest.1 * (digitsToNat ed : Int)))
      else none

/-- Python `int(float)`: truncation toward zero.  On the exact rational
`q.num / q.den` (with `q.den > 0`) this is the truncating division of the
numerator by the denominator. -/
def ratTrunc (q : Rat) : Int :=
  Int.tdiv q.num q.den

/-! ### The parser and formatter themselves -/

/-- The heterogeneous cell values `time_to_minutes` receives: a missing
value (`None`/`NaN`), a `pd.Timestamp`, a `datetime.time`, or a string.
Of a `Timestamp` and a `time` only the fields the code reads (plus the
discarded seconds) are modelled. -/
inductive PyTime where
  | nan : PyTime
  | timestamp (hour minute second : Nat) : PyTime
  | pytime (hour minute second : Nat) : PyTime
  | str (s : String) : PyTime
deriving DecidableEq

/-- `time_to_minutes` (smart_scheduler.py lines 8-31).  `None` is `none`;
the function never raises (every exception in the source is caught). -/
def time_to_minutes : PyTime → Option Int
  | .nan => none
  | .timestamp h m _ => some ((h : Int) * 60 + m)
  | .pytime h m _ => some ((h : Int) * 60 + m)
  | .str s =>
    let t := pyStrip s.toList
    if t = [] then none
    else
      match strptimeChain t with
      | some v => some (v : Int)
      | none =>
        match pyFloat s.toList with
        | some f => some (ratTrunc (f * (24 * 60)))
        | none => none

/-- `to_hhmm` (app.py lines 31-38).  Python `//` and `%` are floor division
and floor modulus (`Int.fdiv` / `Int.fmod`). -/
def to_hhmm : Option Int → String
  | none => "Invalid"
  | some minutes =>
    let h := Int.fdiv minutes 60
    let m := Int.fmod minutes 60
    let ampm : List Char := if h < 12 then ['A', 'M'] else ['P', 'M']
    let h2 := if 1 ≤ h ∧ h ≤ 12 then h else (if h > 12 then h - 12 else 12)
    String.mk (intDigits h2 ++ ':' :: (pad2 m ++ ' ' :: ampm))

/-! ### Busy maps (`build_busy_map`, smart_scheduler.py lines 33-49)

A pandas `DataFrame` is modelled as a list of column names plus a list of
rows, each row a function from column name to cell value.  The busy map is
an association list, which preserves the insertion order of a Python dict. -/

def expected_columns : List String :=
  ["START TIME", "END TIME", "MONDAY", "TUESDAY", "WEDNESDAY", "THURSDAY",
   "FRIDAY", "SATURDAY"]

def weekdays : List String := expected_columns.drop 2

abbrev BusyMap := List (String × List (Int × Int))

/-- Python `dict.get(day, [])`. -/
def mapGet (m : BusyMap) (day : String) : List (Int × Int) :=
  match m.find? (fun p => p.1 == day) with
  | some p => p.2
  | none => []

/-- Python `pd.notna` on a cell. -/
def pyNotna : PyTime → Bool
  | .nan => false
  | _ => true

/-- Python `str(...)` of a cell value.  A string is itself; `str` of a
`Timestamp` or a `datetime.time` is abstracted to its `H:MM:SS` rendering —
the code only ever tests whether this text is non-blank, which any
rendering of a structured time satisfies. -/
def pyStr : PyTime → String
  | .nan => "nan"
  | .str s => s
  | .timestamp h m s => String.mk (natDigits h ++ ':' :: (pad2 m ++ ':' :: pad2 s))
  | .pytime h m s => String.mk (natDigits h ++ ':' :: (pad2 m ++ ':' :: pad2 s))

/-- The weekday-cell test `pd.notna(lecture) and str(lecture).strip() != ""`. -/
def cellPresent (c : PyTime) : Bool :=
  pyNotna c && !(pyStrip (pyStr c).toList = [])

/-- One row of a faculty sheet: a cell value for each column name. -/
def Row := String → PyTime

/-- A faculty sheet: its columns and its rows in order. -/
structure DF where
  cols : List String
  rows : List Row

/-- The inner loop `for day in busy.keys(): ... busy[day].append((start, end))`:
append the interval to every weekday entry whose cell in this row is
non-blank. -/
def appendRow (busy : BusyMap) (row : Row) (iv : Int × Int) : BusyMap :=
  busy.map fun p => if cellPresent (row p.1) then (p.1, p.2 ++ [iv]) else p

/-- The body of `for idx, row in df.iterrows()`: parse the two time cells,
skip the row if either is unparseable or the interval is empty/inverted,
otherwise distribute the interval over the marked weekdays. -/
def busyStep (busy : BusyMap) (row : Row) : BusyMap :=
  match time_to_minutes (row "START TIME"), time_to_minutes (row "END TIME") with
  | some s, some e => if e ≤ s then busy else appendRow busy row (s, e)
  | _, _ => busy

/-- `build_busy_map` (smart_scheduler.py lines 33-49): `raise ValueError`
is rendered as `Except.error`. -/
def build_busy_map (df : DF) : Except String BusyMap :=
  if expected_columns.all (fun c => df.cols.contains c) then
    Except.ok (df.rows.foldl busyStep (weekdays.map fun d => (d, ([] : List (Int × Int)))))
  else
    Except.error "Excel sheet missing required columns"

/-- The caller's loop `for t in selected_teachers: busy_map[t] = build_busy_map(df)`
(app.py lines 183-186): a raised `ValueError` aborts the whole request. -/
def buildAllBusy (dfs : List DF) : Except String (List BusyMap) :=
  match dfs with
  | [] => Except.ok []
  | df :: more =>
    match build_busy_map df with
    | Except.ok m =>
      match buildAllBusy more with
      | Except.ok ms => Except.ok (m :: ms)
      | Except.error e => Except.error e
    | Except.error e => Except.error e

/-! ### The slot search (app.py `process`, lines 189-232) -/

/-- Python `range(a, b, 15)` over integers. -/
def pyRange15 (a b : Int) : List Int :=
  (List.range ((b - a + 14).toNat / 15)).map fun k : Nat => a + 15 * (k : Int)

/-- The conflict test of the inner loops: some participant has some interval
`(s, e)` registered for `day` with `not (end <= s or start >= e)`. -/
def slotConflict (busyMaps : List BusyMap) (day : String) (start e : Int) : Bool :=
  busyMaps.any fun bm =>
    (mapGet bm day).any fun iv => !(decide (e ≤ iv.1) || decide (start ≥ iv.2))

/-- The primary search (app.py lines 189-200): candidates every 15 minutes
from `ws` while `start + duration ≤ we`; collect the conflict-free ones. -/
def findSlots (busyMaps : List BusyMap) (day : String) (duration ws we : Int) :
    List (Int × Int) :=
  (pyRange15 ws (we - duration + 1)).filterMap fun start =>
    if slotConflict busyMaps day start (start + duration) then none
    else some (start, start + duration)

instance : IsTotal (Rat × Int × Int) (fun a b => a.1 ≤ b.1) :=
  ⟨fun a b => le_total a.1 b.1⟩

instance : IsTrans (Rat × Int × Int) (fun a b => a.1 ≤ b.1) :=
  ⟨fun _ _ _ h1 h2 => le_trans h1 h2⟩

instance : IsTotal (Int × Int) (fun a b => a.1 ≤ b.1) :=
  ⟨fun a b => le_total a.1 b.1⟩

instance : IsTrans (Int × Int) (fun a b => a.1 ≤ b.1) :=
  ⟨fun _ _ _ h1 h2 => le_trans h1 h2⟩

/-- The alternative search (app.py lines 202-232).  Python's `list.sort` is
a stable sort; it is modelled by insertion sort with the non-strict key
comparison `a.1 ≤ b.1`, which inserts each element after all earlier-listed
elements of equal key and therefore is stable (`stable_insertionSort`
below proves exactly the tie-breaking order).  The midpoint distances use
Python's true division: all values are halves of integers, which `float`
represents and compares exactly, so `Rat` models them faithfully. -/
def findAlternatives (busyMaps : List BusyMap) (day : String) (duration ws we : Int) :
    List (Int × Int) :=
  let searchStart := max 0 (ws - 120)
  let searchEnd := min (24 * 60) (we + 120)
  let centerUser : Rat := ((ws : Rat) + (we : Rat)) / 2
  let candidates : List (Rat × Int × Int) :=
    (pyRange15 searchStart (searchEnd - duration + 1)).filterMap fun start =>
      if slotConflict busyMaps day start (start + duration) then none
      else some (|((start : Rat) + ((start + duration : Int) : Rat)) / 2 - centerUser|,
                 start, start + duration)
  let sorted := List.insertionSort (fun a b => a.1 ≤ b.1) candidates
  let closest5 := (sorted.take 5).map fun x => (x.2.1, x.2.2)
  List.insertionSort (fun a b => a.1 ≤ b.1) closest5

/-- The search phase of `process`: the primary result, and the alternative
list, which is computed only when the primary result is empty
(`alternative_slots` is initialised to `[]` and only assigned inside
`if not result_list:`). -/
def processSearch (busyMaps : List BusyMap) (day : String) (duration ws we : Int) :
    List (Int × Int) × List (Int × Int) :=
  let result := findSlots busyMaps day duration ws we
  (result, if result = [] then findAlternatives busyMaps day duration ws we else [])

/-! ### Specification-side characterisations used by the claims -/

/-- The claimed overlap rule for a candidate `[cs, ce)` against a busy
interval `(s, e)`: overlap iff `NOT (ce <= s OR cs >= e)`. -/
def overlapB (cs ce s e : Int) : Bool :=
  !(decide (ce ≤ s) || decide (cs ≥ e))

/-- The conflict-free candidate slots of the expanded window, in scan
order — the brute-force list the alternative search's output is compared
against. -/
def altLattice (busyMaps : List BusyMap) (day : String) (duration ws we : Int) :
    List (Int × Int) :=
  (pyRange15 (max 0 (ws - 120)) (min (24 * 60) (we + 120) - duration + 1)).filterMap
    fun start =>
      if slotConflict busyMaps day start (start + duration) then none
      else some (start, start + duration)

/-- Midpoint distance of a slot from the requested window, with exact
(non-truncated) midpoints. -/
def midDist (ws we s e : Int) : Rat :=
  |((s : Rat) + (e : Rat)) / 2 - ((ws : Rat) + (we : Rat)) / 2|

/-- The contribution of one schedule row to one weekday's interval list, as
the specification describes it: nothing when start or end fails to parse or
`end <= start` (the row is skipped), nothing when the weekday cell is blank,
and the parsed `(start, end)` otherwise. -/
def rowContrib (d : String) (row : Row) : Option (Int × Int) :=
  match time_to_minutes (row "START TIME"), time_to_minutes (row "END TIME") with
  | some s, some e =>
    if e ≤ s then none
    else if cellPresent (row d) then some (s, e) else none
  | _, _ => none

/-- Two-digit zero-padded rendering of `n < 100`, used to build test inputs. -/
def dig2 (n : Nat) : List Char := [digitChar (n / 10), digitChar (n % 10)]

/-- A 24-hour `"HH:MM:SS"` string with a seconds component. -/
def mk24 (h m s : Nat) : String :=
  String.mk (dig2 h ++ ':' :: (dig2 m ++ ':' :: dig2 s))

/-- A 12-hour `"H:MM:SS AM"` / `"H:MM:SS PM"` string with a seconds
component. -/
def mk12 (h12 mm ss : Nat) (pm : Bool) : String :=
  String.mk (natDigits h12 ++ ':' :: (dig2 mm ++ ':' ::
    (dig2 ss ++ ' ' :: (if pm then ['P', 'M'] else ['A', 'M']))))

/-- A sample schedule row: 9:00 AM - 10:00 AM, marked on MONDAY, blank
WEDNESDAY cell, other weekday cells missing. -/
def sampleRow : Row := fun c =>
  if c = "START TIME" then .str "9:00 AM"
  else if c = "END TIME" then .str "10:00 AM"
  else if c = "MONDAY" then .str "Lecture"
  else if c = "WEDNESDAY" then .str " "
  else .nan

def sampleDF : DF := ⟨expected_columns, [sampleRow]⟩

def sampleBusy : BusyMap :=
  [("MONDAY", [(540, 600)]), ("TUESDAY", []), ("WEDNESDAY", []),
   ("THURSDAY", []), ("FRIDAY", []), ("SATURDAY", [])]

/-! ## Lemmas about the candidate lattice -/

theorem mem_pyRange15 {a b x : Int} :
    x ∈ pyRange15 a b ↔ ∃ k : Nat, x = a + 15 * k ∧ x < b := by
  simp only [pyRange15, List.mem_map, List.mem_range]
  constructor
  · rintro ⟨k, hk, rfl⟩
    exact ⟨k, rfl, by omega⟩
  · rintro ⟨k, rfl, hx⟩
    exact ⟨k, by omega, rfl⟩

theorem pairwise_pyRange15 (a b : Int) : (pyRange15 a b).Pairwise (· < ·) := by
  unfold pyRange15
  refine List.Pairwise.map _ (fun i j hij => ?_) (List.pairwise_lt_range _)
  omega

theorem pyRange15_eq_nil {a b : Int} (h : b ≤ a) : pyRange15 a b = [] := by
  unfold pyRange15
  have : (b - a + 14).toNat / 15 = 0 := by omega
  simp [this]

theorem pairwise_filterMap {α β : Type} {r : α → α → Prop} {r' : β → β → Prop}
    (f : α → Option β)
    (H : ∀ a b x y, r a b → f a = some x → f b = some y → r' x y)
    {l : List α} (hl : l.Pairwise r) : (l.filterMap f).Pairwise r' := by
  induction l with
  | nil => simp
  | cons a t ih =>
    rw [List.filterMap_cons]
    rcases List.pairwise_cons.mp hl with ⟨ha, ht⟩
    cases hfa : f a with
    | none => exact ih ht
    | some x =>
      refine List.pairwise_cons.mpr ⟨fun y hy => ?_, ih ht⟩
      obtain ⟨b, hb, hfb⟩ := List.mem_filterMap.mp hy
      exact H a b x y (ha b hb) hfa hfb

theorem mem_findSlots {bm : List BusyMap} {day : String} {dur ws we s e : Int} :
    (s, e) ∈ findSlots bm day dur ws we ↔
      (∃ k : Nat, s = ws + 15 * k) ∧ s + dur ≤ we ∧ e = s + dur ∧
        slotConflict bm day s (s + dur) = false := by
  simp only [findSlots, List.mem_filterMap]
  constructor
  · rintro ⟨start, hstart, hsome⟩
    by_cases hc : slotConflict bm day start (start + dur)
    · simp [hc] at hsome
    · simp only [hc, if_false, Option.some.injEq, Prod.mk.injEq] at hsome
      obtain ⟨rfl, rfl⟩ := hsome
      obtain ⟨k, rfl, hlt⟩ := mem_pyRange15.mp hstart
      exact ⟨⟨k, rfl⟩, by omega, rfl, by simpa using hc⟩
  · rintro ⟨⟨k, rfl⟩, hle, rfl, hcf⟩
    exact ⟨ws + 15 * k, mem_pyRange15.mpr ⟨k, rfl, by omega⟩, by simp [hcf]⟩

theorem pairwise_findSlots (bm : List BusyMap) (day : String) (dur ws we : Int) :
    (findSlots bm day dur ws we).Pairwise (fun a b => a.1 < b.1) := by
  unfold findSlots
  refine pairwise_filterMap _ (fun a b x y hab hfa hfb => ?_) (pairwise_pyRange15 _ _)
  by_cases ca : slotConflict bm day a (a + dur) <;> simp [ca] at hfa
  by_cases cb : slotConflict bm day b (b + dur) <;> simp [cb] at hfb
  rw [← hfa, ← hfb]
  exact hab

/-- C1: every slot returned by the primary search overlaps no busy interval
of any participant registered for the weekday, where overlap of `[cs, ce)`
with `(s, e)` holds iff `NOT (ce <= s OR cs >= e)`; a candidate that merely
touches an interval (`ce = s`) is not a conflict and can be returned. -/
theorem C1_no_overlap (bm : List BusyMap) (day : String) (duration ws we : Int)
    (_hdur : 0 < duration) :
    (∀ p ∈ findSlots bm day duration ws we, ∀ m ∈ bm, ∀ iv ∈ mapGet m day,
        overlapB p.1 p.2 iv.1 iv.2 = false)
    ∧ (∀ cs ce s e : Int, ce = s → overlapB cs ce s e = false)
    ∧ (100, 130) ∈ findSlots [[("MONDAY", [(130, 200)])]] "MONDAY" 30 100 200 := by
  refine ⟨?_, ?_, ?_⟩
  · rintro ⟨s, e⟩ hp m hm iv hiv
    obtain ⟨-, -, he, hcf⟩ := mem_findSlots.mp hp
    subst he
    by_contra hov
    rw [Bool.not_eq_false] at hov
    have hconf : slotConflict bm day s (s + duration) = true := by
      unfold slotConflict
      rw [List.any_eq_true]
      refine ⟨m, hm, ?_⟩
      rw [List.any_eq_true]
      exact ⟨iv, hiv, hov⟩
    rw [hcf] at hconf
    exact Bool.false_ne_true hconf
  · intro cs ce s e hce
    subst hce
    simp [overlapB]
  · decide

theorem C1_no_overlap_witness :
    (0 : Int) < 30 ∧
      (100, 130) ∈ findSlots [[("MONDAY", [(130, 200)])]] "MONDAY" 30 100 200 :=
  ⟨by decide,
    (C1_no_overlap [[("MONDAY", [(130, 200)])]] "MONDAY" 30 100 200 (by decide)).2.2⟩

/-- C2: the primary search's result consists exactly of the non-conflicting
candidates `windowStart + 15k` with `start + duration ≤ windowEnd`, each
paired with `start + duration`, in ascending start order; a window shorter
than the duration yields the empty list rather than an error. -/
theorem C2_lattice (bm : List BusyMap) (day : String) (duration ws we : Int) :
    (∀ s e : Int, (s, e) ∈ findSlots bm day duration ws we ↔
       (∃ k : Nat, s = ws + 15 * k) ∧ s + duration ≤ we ∧ e = s + duration ∧
         slotConflict bm day s (s + duration) = false)
    ∧ (findSlots bm day duration ws we).Pairwise (fun a b => a.1 < b.1)
    ∧ (we - ws < duration → findSlots bm day duration ws we = []) := by
  refine ⟨fun s e => mem_findSlots, pairwise_findSlots bm day duration ws we, fun hlt => ?_⟩
  unfold findSlots
  rw [pyRange15_eq_nil (by omega)]
  rfl

theorem C2_lattice_witness : findSlots [] "MONDAY" 120 100 200 = [] :=
  (C2_lattice [] "MONDAY" 120 100 200).2.2 (by decide)

/-! ## Lemmas about `build_busy_map` -/

theorem keys_appendRow (busy : BusyMap) (row : Row) (iv : Int × Int) :
    (appendRow busy row iv).map Prod.fst = busy.map Prod.fst := by
  unfold appendRow
  rw [List.map_map]
  refine List.map_congr_left fun p _ => ?_
  by_cases h : cellPresent (row p.1) <;> simp [h]

theorem keys_busyStep (busy : BusyMap) (row : Row) :
    (busyStep busy row).map Prod.fst = busy.map Prod.fst := by
  unfold busyStep
  cases time_to_minutes (row "START TIME") with
  | none => rfl
  | some s =>
    cases time_to_minutes (row "END TIME") with
    | none => rfl
    | some e =>
      by_cases h : e ≤ s
      · simp [h]
      · simp [h, keys_appendRow]

theorem keys_foldl_busyStep (rows : List Row) (busy : BusyMap) :
    (rows.foldl busyStep busy).map Prod.fst = busy.map Prod.fst := by
  induction rows generalizing busy with
  | nil => rfl
  | cons row rest ih => rw [List.foldl_cons, ih, keys_busyStep]

theorem mapGet_cons (k : String) (l : List (Int × Int)) (t : BusyMap) (d : String) :
    mapGet ((k, l) :: t) d = if k = d then l else mapGet t d := by
  by_cases h : k = d
  · simp [mapGet, List.find?, h]
  · have hbeq : (k == d) = false := by simpa using h
    simp [mapGet, List.find?, hbeq, h]

theorem appendRow_cons (k : String) (l : List (Int × Int)) (t : BusyMap) (row : Row)
    (iv : Int × Int) :
    appendRow ((k, l) :: t) row iv =
      (if cellPresent (row k) = true then (k, l ++ [iv]) else (k, l)) :: appendRow t row iv := by
  by_cases hc : cellPresent (row k) = true <;> simp [appendRow, hc]

theorem mapGet_appendRow (busy : BusyMap) (row : Row) (iv : Int × Int) (d : String) :
    mapGet (appendRow busy row iv) d =
      if d ∈ busy.map Prod.fst ∧ cellPresent (row d) = true then mapGet busy d ++ [iv]
      else mapGet busy d := by
  induction busy with
  | nil => simp [appendRow, mapGet]
  | cons p t ih =>
    rcases p with ⟨k, l⟩
    rw [appendRow_cons]
    by_cases hkd : k = d
    · subst hkd
      by_cases hc : cellPresent (row k) = true
      · rw [if_pos hc, mapGet_cons, if_pos rfl, mapGet_cons, if_pos rfl,
          if_pos ⟨by simp, hc⟩]
      · rw [if_neg hc, mapGet_cons, if_pos rfl, mapGet_cons, if_pos rfl,
          if_neg (fun hand => hc hand.2)]
    · have hstep : ((if cellPresent (row k) = true then (k, l ++ [iv]) else (k, l)) :: appendRow t row iv) = ((k, (if cellPresent (row k) = true then l ++ [iv] else l)) :: appendRow t row iv) := by
        by_cases hc : cellPresent (row k) = true <;> simp [hc]
      rw [hstep, mapGet_cons, if_neg hkd, ih, mapGet_cons, if_neg hkd]
      have hmem : (d ∈ List.map Prod.fst ((k, l) :: t)) ↔ d ∈ List.map Prod.fst t := by
        simp [Ne.symm hkd]
      by_cases hm : d ∈ List.map Prod.fst t ∧ cellPresent (row d) = true
      · rw [if_pos hm, if_pos ⟨hmem.mpr hm.1, hm.2⟩]
      · rw [if_neg hm, if_neg (fun hand => hm ⟨hmem.mp hand.1, hand.2⟩)]

theorem mapGet_busyStep (busy : BusyMap) (row : Row) (d : String)
    (hd : d ∈ busy.map Prod.fst) :
    mapGet (busyStep busy row) d = mapGet busy d ++ (rowContrib d row).toList := by
  cases hs : time_to_minutes (row "START TIME") with
  | none => simp [busyStep, rowContrib, hs]
  | some s =>
    cases he : time_to_minutes (row "END TIME") with
    | none => simp [busyStep, rowContrib, hs, he]
    | some e =>
      by_cases h : e ≤ s
      · simp [busyStep, rowContrib, hs, he, h]
      · by_cases hc : cellPresent (row d) = true <;>
          simp [busyStep, rowContrib, hs, he, h, hc, mapGet_appendRow, hd]

theorem mapGet_foldl_busyStep (rows : List Row) (busy : BusyMap) (d : String)
    (hd : d ∈ busy.map Prod.fst) :
    mapGet (rows.foldl busyStep busy) d =
      mapGet busy d ++ rows.filterMap (rowContrib d) := by
  induction rows generalizing busy with
  | nil => simp
  | cons row rest ih =>
    rw [List.foldl_cons, ih _ (by rw [keys_busyStep]; exact hd),
      mapGet_busyStep busy row d hd, List.filterMap_cons]
    cases rowContrib d row <;> simp

theorem mapGet_init (l : List String) (d : String) :
    mapGet (l.map fun k => (k, ([] : List (Int × Int)))) d = [] := by
  induction l with
  | nil => rfl
  | cons k t ih =>
    by_cases h : k = d
    · simp [mapGet, List.find?, h]
    · have hbeq : (k == d) = false := by simpa using h
      simpa [mapGet, List.find?, hbeq] using ih

theorem appendRow_intervals (busy : BusyMap) (row : Row) {s e : Int} (hse : s < e)
    (H : ∀ p ∈ busy, ∀ iv ∈ p.2, iv.1 < iv.2) :
    ∀ p ∈ appendRow busy row (s, e), ∀ iv ∈ p.2, iv.1 < iv.2 := by
  intro p hp iv hiv
  obtain ⟨q, hq, rfl⟩ := List.mem_map.mp hp
  by_cases hc : cellPresent (row q.1) = true
  · rw [if_pos hc] at hiv
    rcases List.mem_append.mp hiv with h1 | h1
    · exact H q hq iv h1
    · rw [List.mem_singleton] at h1
      subst h1
      exact hse
  · rw [if_neg hc] at hiv
    exact H q hq iv hiv

theorem busyStep_intervals (busy : BusyMap) (row : Row)
    (H : ∀ p ∈ busy, ∀ iv ∈ p.2, iv.1 < iv.2) :
    ∀ p ∈ busyStep busy row, ∀ iv ∈ p.2, iv.1 < iv.2 := by
  cases hs : time_to_minutes (row "START TIME") with
  | none => simpa [busyStep, hs] using H
  | some s =>
    cases he : time_to_minutes (row "END TIME") with
    | none => simpa [busyStep, hs, he] using H
    | some e =>
      by_cases hle : e ≤ s
      · simpa [busyStep, hs, he, hle] using H
      · simpa [busyStep, hs, he, hle] using appendRow_intervals busy row (by omega) H

theorem foldl_busyStep_intervals (rows : List Row) (busy : BusyMap)
    (H : ∀ p ∈ busy, ∀ iv ∈ p.2, iv.1 < iv.2) :
    ∀ p ∈ rows.foldl busyStep busy, ∀ iv ∈ p.2, iv.1 < iv.2 := by
  induction rows generalizing busy with
  | nil => exact H
  | cons row rest ih => exact ih _ (busyStep_intervals busy row H)

theorem build_busy_map_ok {df : DF} {m : BusyMap}
    (h : build_busy_map df = Except.ok m) :
    m = df.rows.foldl busyStep (weekdays.map fun d => (d, ([] : List (Int × Int)))) := by
  unfold build_busy_map at h
  by_cases hcols : expected_columns.all (fun c => df.cols.contains c) = true
  · rw [if_pos hcols] at h
    exact (Except.ok.inj h).symm
  · rw [if_neg hcols] at h
    cases h

/-- C7: a row contributes to a weekday's interval list exactly when its
start and end parse with `start < end` and the weekday cell holds
non-whitespace text; the per-day lists are the rows' contributions in row
order, with no deduplication or sorting. -/
theorem C7_row_contributions (df : DF) (m : BusyMap)
    (h : build_busy_map df = Except.ok m) :
    ∀ d ∈ weekdays, mapGet m d = df.rows.filterMap (rowContrib d) := by
  intro d hd
  rw [build_busy_map_ok h, mapGet_foldl_busyStep _ _ _ (by simpa using hd), mapGet_init]
  rfl

/-- C8: a successfully built busy map has exactly the keys MONDAY..SATURDAY
(never SUNDAY), and every stored interval satisfies `start < end`. -/
theorem C8_busy_invariants (df : DF) (m : BusyMap)
    (h : build_busy_map df = Except.ok m) :
    m.map Prod.fst = weekdays ∧ "SUNDAY" ∉ m.map Prod.fst ∧
      ∀ p ∈ m, ∀ iv ∈ p.2, iv.1 < iv.2 := by
  have hkeys : m.map Prod.fst = weekdays := by
    rw [build_busy_map_ok h, keys_foldl_busyStep, List.map_map]
    rfl
  refine ⟨hkeys, ?_, ?_⟩
  · rw [hkeys]
    decide
  · rw [build_busy_map_ok h]
    exact foldl_busyStep_intervals df.rows _ (by simp)

theorem C7_row_contributions_witness :
    build_busy_map sampleDF = Except.ok sampleBusy ∧ "MONDAY" ∈ weekdays ∧
      mapGet sampleBusy "MONDAY" = sampleDF.rows.filterMap (rowContrib "MONDAY") :=
  ⟨rfl, by decide, C7_row_contributions sampleDF sampleBusy rfl "MONDAY" (by decide)⟩

theorem C8_busy_invariants_witness :
    build_busy_map sampleDF = Except.ok sampleBusy ∧
      (sampleBusy.map Prod.fst = weekdays ∧ "SUNDAY" ∉ sampleBusy.map Prod.fst ∧
        ∀ p ∈ sampleBusy, ∀ iv ∈ p.2, iv.1 < iv.2) :=
  ⟨rfl, C8_busy_invariants sampleDF sampleBusy rfl⟩

/-- C6: `build_busy_map` fails (with the schema `ValueError`) exactly when
one of the eight required columns is missing; with all columns present it
returns a busy map; and a failure for any sheet propagates out of the
caller's build loop instead of being swallowed. -/
theorem C6_schema_error (df : DF) :
    ((∃ c ∈ expected_columns, c ∉ df.cols) ↔ (∃ msg, build_busy_map df = Except.error msg))
    ∧ ((∀ c ∈ expected_columns, c ∈ df.cols) → ∃ m, build_busy_map df = Except.ok m)
    ∧ (∀ dfs : List DF, df ∈ dfs → (build_busy_map df).isOk = false →
        (buildAllBusy dfs).isOk = false) := by
  have hcond : expected_columns.all (fun c => df.cols.contains c) = true ↔
      ∀ c ∈ expected_columns, c ∈ df.cols := by
    simp [List.all_eq_true]
  refine ⟨⟨fun hmiss => ?_, fun hmsg => ?_⟩, fun hall => ?_, fun dfs hmem hbad => ?_⟩
  · have : ¬ expected_columns.all (fun c => df.cols.contains c) = true := by
      rw [hcond]
      obtain ⟨c, hc, hnot⟩ := hmiss
      exact fun hforall => hnot (hforall c hc)
    exact ⟨_, by rw [build_busy_map, if_neg this]⟩
  · by_contra hnomiss
    push_neg at hnomiss
    obtain ⟨msg, hmsg⟩ := hmsg
    rw [build_busy_map, if_pos (hcond.mpr hnomiss)] at hmsg
    cases hmsg
  · exact ⟨_, by rw [build_busy_map, if_pos (hcond.mpr hall)]⟩
  · induction dfs with
    | nil => cases hmem
    | cons df0 rest ih =>
      rcases List.mem_cons.mp hmem with rfl | hrest
      · cases hb : build_busy_map df with
        | error e => simp [buildAllBusy, hb, Except.isOk, Except.toBool]
        | ok m => rw [hb] at hbad; simp [Except.isOk, Except.toBool] at hbad
      · cases hb : build_busy_map df0 with
        | error e => simp [buildAllBusy, hb, Except.isOk, Except.toBool]
        | ok m =>
          have hr := ih hrest
          cases hrest2 : buildAllBusy rest with
          | error e => simp [buildAllBusy, hb, hrest2, Except.isOk, Except.toBool]
          | ok ms => rw [hrest2] at hr; simp [Except.isOk, Except.toBool] at hr

theorem C6_schema_error_witness :
    ("END TIME" ∈ expected_columns ∧ "END TIME" ∉ (["START TIME"] : List String)) ∧
      (∃ msg, build_busy_map ⟨["START TIME"], []⟩ = Except.error msg) ∧
      (build_busy_map ⟨["START TIME"], []⟩).isOk = false ∧
      (buildAllBusy [⟨["START TIME"], []⟩]).isOk = false :=
  ⟨⟨by decide, by decide⟩,
    (C6_schema_error ⟨["START TIME"], []⟩).1.mp ⟨"END TIME", by decide, by decide⟩,
    by rfl,
    (C6_schema_error ⟨["START TIME"], []⟩).2.2 [⟨["START TIME"], []⟩] (by simp) (by rfl)⟩

/-- C9: the parser returns `none` (raising nothing) on empty, blank,
missing, or unmatched input, and the formatter renders `none` as the
literal string `"Invalid"` instead of failing. -/
theorem C9_null_and_sentinel :
    time_to_minutes PyTime.nan = none
    ∧ (∀ s : String, pyStrip s.toList = [] → time_to_minutes (.str s) = none)
    ∧ (∀ s : String, strptimeChain (pyStrip s.toList) = none →
        pyFloat s.toList = none → time_to_minutes (.str s) = none)
    ∧ to_hhmm none = "Invalid" := by
  refine ⟨rfl, fun s hs => ?_, fun s h1 h2 => ?_, rfl⟩
  · have hs' : pyStrip s.data = [] := hs
    simp [time_to_minutes, hs']
  · have h1' : strptimeChain (pyStrip s.data) = none := h1
    have h2' : pyFloat s.data = none := h2
    by_cases hblank : pyStrip s.data = []
    · simp [time_to_minutes, hblank]
    · simp [time_to_minutes, hblank, h1', h2']

/-! ## Bounds on the values produced by the `strptime` model -/

theorem char_le_iff {a b : Char} : a ≤ b ↔ a.toNat ≤ b.toNat := Iff.rfl

theorem mem_ite_singleton {α : Type} {c : Prop} [Decidable c] {x p : α}
    (h : p ∈ (if c then [x] else [])) : c ∧ p = x := by
  by_cases hc : c
  · rw [if_pos hc] at h
    exact ⟨hc, List.mem_singleton.mp h⟩
  · rw [if_neg hc] at h
    cases h

theorem tryCands_eq_some {α β : Type} {cands : List (α × List Char)}
    {k : α → List Char → Option β} {b : β} (h : tryCands cands k = some b) :
    ∃ p ∈ cands, k p.1 p.2 = some b := by
  induction cands with
  | nil => cases h
  | cons p more ih =>
    rcases p with ⟨v, r⟩
    cases hk : k v r with
    | some b2 =>
      rw [tryCands, hk] at h
      exact ⟨(v, r), List.mem_cons_self _ _, by rw [hk]; exact h⟩
    | none =>
      rw [tryCands, hk] at h
      obtain ⟨p, hp, hkp⟩ := ih h
      exact ⟨p, List.mem_cons_of_mem _ hp, hkp⟩

theorem tryRests_eq_some {β : Type} {rs : List (List Char)}
    {k : List Char → Option β} {b : β} (h : tryRests rs k = some b) :
    ∃ r ∈ rs, k r = some b := by
  induction rs with
  | nil => cases h
  | cons r more ih =>
    cases hk : k r with
    | some b2 =>
      rw [tryRests, hk] at h
      exact ⟨r, List.mem_cons_self _ _, by rw [hk]; exact h⟩
    | none =>
      rw [tryRests, hk] at h
      obtain ⟨r2, hr2, hkr⟩ := ih h
      exact ⟨r2, List.mem_cons_of_mem _ hr2, hkr⟩

theorem fieldI_bound {cs : List Char} {p : Nat × List Char} (h : p ∈ fieldI cs) :
    1 ≤ p.1 ∧ p.1 ≤ 12 := by
  have e0 : ('0' : Char).toNat = 48 := rfl
  have e1 : ('1' : Char).toNat = 49 := rfl
  have e2 : ('2' : Char).toNat = 50 := rfl
  have e3 : ('3' : Char).toNat = 51 := rfl
  have e5 : ('5' : Char).toNat = 53 := rfl
  have e6 : ('6' : Char).toNat = 54 := rfl
  have e9 : ('9' : Char).toNat = 57 := rfl
  rcases cs with _ | ⟨c1, _ | ⟨c2, rest⟩⟩
  · cases h
  · obtain ⟨⟨h1, h2⟩, rfl⟩ := mem_ite_singleton h
    rw [char_le_iff] at h1 h2
    unfold digVal
    omega
  · simp only [fieldI, List.mem_append] at h
    rcases h with (h | h) | h <;> obtain ⟨hc, rfl⟩ := mem_ite_singleton h
    · obtain ⟨-, h1, h2⟩ := hc
      rw [char_le_iff] at h1 h2
      unfold digVal
      omega
    · obtain ⟨-, h1, h2⟩ := hc
      rw [char_le_iff] at h1 h2
      unfold digVal
      omega
    · obtain ⟨h1, h2⟩ := hc
      rw [char_le_iff] at h1 h2
      unfold digVal
      omega

theorem fieldH_bound {cs : List Char} {p : Nat × List Char} (h : p ∈ fieldH cs) :
    p.1 ≤ 23 := by
  have e0 : ('0' : Char).toNat = 48 := rfl
  have e1 : ('1' : Char).toNat = 49 := rfl
  have e2 : ('2' : Char).toNat = 50 := rfl
  have e3 : ('3' : Char).toNat = 51 := rfl
  have e5 : ('5' : Char).toNat = 53 := rfl
  have e6 : ('6' : Char).toNat = 54 := rfl
  have e9 : ('9' : Char).toNat = 57 := rfl
  rcases cs with _ | ⟨c1, _ | ⟨c2, rest⟩⟩
  · cases h
  · obtain ⟨⟨h1, h2⟩, rfl⟩ := mem_ite_singleton h
    rw [char_le_iff] at h1 h2
    unfold digVal
    omega
  · simp only [fieldH, List.mem_append] at h
    rcases h with (h | h) | h <;> obtain ⟨hc, rfl⟩ := mem_ite_singleton h
    · obtain ⟨-, h1, h2⟩ := hc
      rw [char_le_iff] at h1 h2
      unfold digVal
      omega
    · obtain ⟨⟨h1, h2⟩, h3, h4⟩ := hc
      rw [char_le_iff] at h1 h2 h3 h4
      unfold digVal
      omega
    · obtain ⟨h1, h2⟩ := hc
      rw [char_le_iff] at h1 h2
      unfold digVal
      omega

theorem fieldM_bound {cs : List Char} {p : Nat × List Char} (h : p ∈ fieldM cs) :
    p.1 ≤ 59 := by
  have e0 : ('0' : Char).toNat = 48 := rfl
  have e1 : ('1' : Char).toNat = 49 := rfl
  have e2 : ('2' : Char).toNat = 50 := rfl
  have e3 : ('3' : Char).toNat = 51 := rfl
  have e5 : ('5' : Char).toNat = 53 := rfl
  have e6 : ('6' : Char).toNat = 54 := rfl
  have e9 : ('9' : Char).toNat = 57 := rfl
  rcases cs with _ | ⟨c1, _ | ⟨c2, rest⟩⟩
  · cases h
  · obtain ⟨⟨h1, h2⟩, rfl⟩ := mem_ite_singleton h
    rw [char_le_iff] at h1 h2
    unfold digVal
    omega
  · simp only [fieldM, List.mem_append] at h
    rcases h with h | h <;> obtain ⟨hc, rfl⟩ := mem_ite_singleton h
    · obtain ⟨⟨h1, h2⟩, h3, h4⟩ := hc
      rw [char_le_iff] at h1 h2 h3 h4
      unfold digVal
      omega
    · obtain ⟨h1, h2⟩ := hc
      rw [char_le_iff] at h1 h2
      unfold digVal
      omega

theorem adjust12_bound {h : Nat} (h1 : 1 ≤ h) (h2 : h ≤ 12) (pm : Bool) :
    adjust12 h pm ≤ 23 := by
  unfold adjust12
  rcases pm <;> simp <;> split <;> omega

theorem matchIMp_bound {cs : List Char} {v : Nat} (h : matchIMp cs = some v) :
    v ≤ 1439 := by
  unfold matchIMp at h
  obtain ⟨p, hp, hk⟩ := tryCands_eq_some h
  have hb := fieldI_bound hp
  unfold impAfterI at hk
  split at hk
  · obtain ⟨q, hq, hk2⟩ := tryCands_eq_some hk
    have hm := fieldM_bound hq
    unfold impAfterM at hk2
    obtain ⟨r4, -, hk3⟩ := tryRests_eq_some hk2
    unfold ampmTail at hk3
    obtain ⟨w, -, hk4⟩ := tryCands_eq_some hk3
    split at hk4
    · have hadj := adjust12_bound hb.1 hb.2 w.1
      cases hk4
      omega
    · cases hk4
  · cases hk

theorem matchIMSp_bound {cs : List Char} {v : Nat} (h : matchIMSp cs = some v) :
    v ≤ 1439 := by
  unfold matchIMSp at h
  obtain ⟨p, hp, hk⟩ := tryCands_eq_some h
  have hb := fieldI_bound hp
  unfold imspAfterI at hk
  split at hk
  · obtain ⟨q, hq, hk2⟩ := tryCands_eq_some hk
    have hm := fieldM_bound hq
    unfold imspAfterM at hk2
    split at hk2
    · obtain ⟨u, -, hk3⟩ := tryCands_eq_some hk2
      unfold imspAfterS at hk3
      obtain ⟨r6, -, hk4⟩ := tryRests_eq_some hk3
      unfold ampmTail at hk4
      obtain ⟨w, -, hk5⟩ := tryCands_eq_some hk4
      split at hk5
      · have hadj := adjust12_bound hb.1 hb.2 w.1
        cases hk5
        omega
      · cases hk5
    · cases hk2
  · cases hk

theorem matchHM_bound {cs : List Char} {v : Nat} (h : matchHM cs = some v) :
    v ≤ 1439 := by
  unfold matchHM at h
  obtain ⟨p, hp, hk⟩ := tryCands_eq_some h
  have hb := fieldH_bound hp
  unfold hmAfterH at hk
  split at hk
  · obtain ⟨q, hq, hk2⟩ := tryCands_eq_some hk
    have hm := fieldM_bound hq
    unfold hmAfterM at hk2
    split at hk2
    · cases hk2
      omega
    · cases hk2
  · cases hk

theorem matchHMS_bound {cs : List Char} {v : Nat} (h : matchHMS cs = some v) :
    v ≤ 1439 := by
  unfold matchHMS at h
  obtain ⟨p, hp, hk⟩ := tryCands_eq_some h
  have hb := fieldH_bound hp
  unfold hmsAfterH at hk
  split at hk
  · obtain ⟨q, hq, hk2⟩ := tryCands_eq_some hk
    have hm := fieldM_bound hq
    unfold hmsAfterM at hk2
    split at hk2
    · obtain ⟨u, -, hk3⟩ := tryCands_eq_some hk2
      unfold hmsAfterS at hk3
      split at hk3
      · cases hk3
        omega
      · cases hk3
    · cases hk2
  · cases hk

theorem strptimeChain_bound {cs : List Char} {v : Nat}
    (h : strptimeChain cs = some v) : v ≤ 1439 := by
  unfold strptimeChain at h
  cases h1 : matchIMp cs with
  | some w => rw [h1] at h; cases h; exact matchIMp_bound h1
  | none =>
    rw [h1] at h
    cases h2 : matchIMSp cs with
    | some w => rw [h2] at h; cases h; exact matchIMSp_bound h2
    | none =>
      rw [h2] at h
      cases h3 : matchHM cs with
      | some w => rw [h3] at h; cases h; exact matchHM_bound h3
      | none => rw [h3] at h; exact matchHMS_bound h

/-- C5 (amended): successes of the structured strategies (whose hour and
minute fields are in range by construction) and of the four string-format
strategies always lie in `[0, 1440)`; the numeric fraction-of-day strategy
returns `int(value * 1440)` unclamped, which can leave that range. -/
theorem C5_parse_range :
    (∀ h m s : Nat, h < 24 → m < 60 →
        time_to_minutes (.timestamp h m s) = some ((h : Int) * 60 + m) ∧
        time_to_minutes (.pytime h m s) = some ((h : Int) * 60 + m) ∧
        0 ≤ (h : Int) * 60 + m ∧ (h : Int) * 60 + m < 1440)
    ∧ (∀ s : String, ∀ v : Nat, strptimeChain (pyStrip s.toList) = some v →
        time_to_minutes (.str s) = some (v : Int) ∧
        0 ≤ (v : Int) ∧ (v : Int) < 1440) := by
  constructor
  · intro h m s hh hm
    refine ⟨rfl, rfl, by positivity, ?_⟩
    omega
  · intro s v hchain
    have hb : ¬ pyStrip s.data = [] := by
      intro hnil
      rw [show s.toList = s.data from rfl, hnil] at hchain
      cases hchain
    have hchain' : strptimeChain (pyStrip s.data) = some v := hchain
    refine ⟨by simp [time_to_minutes, hb, hchain'], by positivity, ?_⟩
    have := strptimeChain_bound hchain'
    exact_mod_cast by omega

theorem ratTrunc_intCast (n : Int) : ratTrunc ((n : Int) : Rat) = n := by
  unfold ratTrunc
  norm_num

theorem time_to_minutes_two : time_to_minutes (.str "2") = some 2880 := by
  have hb : ¬ pyStrip ("2" : String).data = [] := by decide
  have hc : strptimeChain (pyStrip ("2" : String).data) = none := by decide
  have hf : pyFloat ("2" : String).data =
      some ((1 : Rat) * (((2 : Nat) : Rat) + ((0 : Nat) : Rat) / (10 : Rat) ^ (0 : Nat))) :=
    rfl
  simp [time_to_minutes, hb, hc, hf]
  rw [show ((2 : Rat) * (24 * 60)) = ((2880 : Int) : Rat) from by norm_num,
    ratTrunc_intCast]

theorem time_to_minutes_negquarter : time_to_minutes (.str "-0.25") = some (-360) := by
  have hb : ¬ pyStrip ("-0.25" : String).data = [] := by decide
  have hc : strptimeChain (pyStrip ("-0.25" : String).data) = none := by decide
  have hf : pyFloat ("-0.25" : String).data =
      some ((-1 : Rat) * (((0 : Nat) : Rat) + ((25 : Nat) : Rat) / (10 : Rat) ^ (2 : Nat))) :=
    rfl
  simp [time_to_minutes, hb, hc, hf]
  rw [show (-((25 : Rat) / 10 ^ 2 * (24 * 60))) = ((-360 : Int) : Rat) from by norm_num,
    ratTrunc_intCast]

/-- C5 is false as stated: the numeric fraction-of-day strategy can produce
values outside `[0, 1440)`, e.g. `"2" ↦ 2880` and `"-0.25" ↦ -360`. -/
theorem C5_counterexample :
    time_to_minutes (.str "2") = some 2880 ∧
      time_to_minutes (.str "-0.25") = some (-360) ∧
      ¬ (∀ t : PyTime, ∀ v : Int, time_to_minutes t = some v → 0 ≤ v ∧ v < 1440) := by
  refine ⟨time_to_minutes_two, time_to_minutes_negquarter, fun hall => ?_⟩
  have := hall (.str "2") 2880 time_to_minutes_two
  omega

theorem C5_parse_range_witness :
    (9 < 24 ∧ 30 < 60 ∧ time_to_minutes (.timestamp 9 30 45) = some 570) ∧
      (strptimeChain (pyStrip ("7:05 PM" : String).toList) = some 1145 ∧
        time_to_minutes (.str "7:05 PM") = some 1145 ∧
        (0 : Int) ≤ 1145 ∧ (1145 : Int) < 1440) :=
  ⟨⟨by decide, by decide, (C5_parse_range.1 9 30 45 (by decide) (by decide)).1⟩,
    by decide,
    (C5_parse_range.2 "7:05 PM" 1145 (by decide)).1,
    (C5_parse_range.2 "7:05 PM" 1145 (by decide)).2⟩

theorem C9_null_and_sentinel_witness :
    (pyStrip ("  " : String).toList = [] ∧ time_to_minutes (.str "  ") = none) ∧
      (strptimeChain (pyStrip ("hello" : String).toList) = none ∧
        pyFloat ("hello" : String).toList = none ∧
        time_to_minutes (.str "hello") = none) :=
  ⟨⟨by decide, C9_null_and_sentinel.2.1 "  " (by decide)⟩,
    ⟨by decide, by decide,
      C9_null_and_sentinel.2.2.1 "hello" (by decide) (by decide)⟩⟩

/-! ## Evaluation lemmas for the `strptime` model on rendered time strings -/

theorem tryCands_nil {α β : Type} (k : α → List Char → Option β) :
    tryCands [] k = none := rfl

theorem tryCands_cons {α β : Type} (v : α) (r : List Char) (more : List (α × List Char))
    (k : α → List Char → Option β) :
    tryCands ((v, r) :: more) k =
      match k v r with
      | some b => some b
      | none => tryCands more k := rfl

theorem tryRests_nil {β : Type} (k : List Char → Option β) : tryRests [] k = none := rfl

theorem tryRests_cons {β : Type} (r : List Char) (more : List (List Char))
    (k : List Char → Option β) :
    tryRests (r :: more) k =
      match k r with
      | some b => some b
      | none => tryRests more k := rfl

theorem tryCands_eq_none {α β : Type} {cands : List (α × List Char)}
    {k : α → List Char → Option β} (h : ∀ p ∈ cands, k p.1 p.2 = none) :
    tryCands cands k = none := by
  induction cands with
  | nil => rfl
  | cons p more ih =>
    rcases p with ⟨v, r⟩
    rw [tryCands_cons, h (v, r) (List.mem_cons_self _ _)]
    exact ih fun q hq => h q (List.mem_cons_of_mem _ hq)

theorem digitChar_ne_colon (n : Nat) : digitChar n ≠ ':' := by
  unfold digitChar
  split <;> decide

theorem digitChar_not_ws (n : Nat) : isPyWs (digitChar n) = false := by
  unfold digitChar
  split <;> decide

theorem colon_not_ws : isPyWs ':' = false := by decide

theorem wsPlus_nil_of_all {l : List Char} (h : ∀ c ∈ l, isPyWs c = false) :
    wsPlus l = [] := by
  cases l with
  | nil => rfl
  | cons c rest => simp [wsPlus, h c (List.mem_cons_self _ _)]

theorem fieldI_rest {cs : List Char} {p : Nat × List Char} (h : p ∈ fieldI cs) :
    p.2 <:+ cs := by
  rcases cs with _ | ⟨c1, _ | ⟨c2, rest⟩⟩
  · cases h
  · obtain ⟨-, rfl⟩ := mem_ite_singleton h
    exact List.nil_suffix
  · simp only [fieldI, List.mem_append] at h
    rcases h with (h | h) | h <;> obtain ⟨-, rfl⟩ := mem_ite_singleton h
    · exact ⟨[c1, c2], rfl⟩
    · exact ⟨[c1, c2], rfl⟩
    · exact ⟨[c1], rfl⟩

theorem fieldM_rest {cs : List Char} {p : Nat × List Char} (h : p ∈ fieldM cs) :
    p.2 <:+ cs := by
  rcases cs with _ | ⟨c1, _ | ⟨c2, rest⟩⟩
  · cases h
  · obtain ⟨-, rfl⟩ := mem_ite_singleton h
    exact List.nil_suffix
  · simp only [fieldM, List.mem_append] at h
    rcases h with h | h <;> obtain ⟨-, rfl⟩ := mem_ite_singleton h
    · exact ⟨[c1, c2], rfl⟩
    · exact ⟨[c1], rfl⟩

theorem fieldS_rest {cs : List Char} {p : Nat × List Char} (h : p ∈ fieldS cs) :
    p.2 <:+ cs := by
  rcases cs with _ | ⟨c1, _ | ⟨c2, rest⟩⟩
  · cases h
  · obtain ⟨-, rfl⟩ := mem_ite_singleton h
    exact List.nil_suffix
  · simp only [fieldS, List.mem_append] at h
    rcases h with (h | h) | h <;> obtain ⟨-, rfl⟩ := mem_ite_singleton h
    · exact ⟨[c1, c2], rfl⟩
    · exact ⟨[c1, c2], rfl⟩
    · exact ⟨[c1], rfl⟩

theorem noWs_of_suffix {l l' : List Char} (hsuf : l' <:+ l)
    (h : ∀ c ∈ l, isPyWs c = false) : ∀ c ∈ l', isPyWs c = false :=
  fun c hc => h c (hsuf.subset hc)

/-- A string containing no whitespace cannot match `"%I:%M %p"`: the `\s+`
between the minute and `%p` finds nothing to consume. -/
theorem matchIMp_noWs {cs : List Char} (h : ∀ c ∈ cs, isPyWs c = false) :
    matchIMp cs = none := by
  unfold matchIMp
  refine tryCands_eq_none fun p hp => ?_
  have hsuf := fieldI_rest hp
  unfold impAfterI
  split
  · rename_i r2 heq
    refine tryCands_eq_none fun q hq => ?_
    have hr2 : r2 <:+ cs := by
      refine List.IsSuffix.trans ⟨[':'], ?_⟩ hsuf
      rw [heq, List.singleton_append]
    have hsuf2 : q.2 <:+ cs := (fieldM_rest hq).trans hr2
    unfold impAfterM
    rw [wsPlus_nil_of_all (noWs_of_suffix hsuf2 h)]
    rfl
  · rfl

/-- A string containing no whitespace cannot match `"%I:%M:%S %p"` either. -/
theorem matchIMSp_noWs {cs : List Char} (h : ∀ c ∈ cs, isPyWs c = false) :
    matchIMSp cs = none := by
  unfold matchIMSp
  refine tryCands_eq_none fun p hp => ?_
  have hsuf := fieldI_rest hp
  unfold imspAfterI
  split
  · rename_i r2 heq
    refine tryCands_eq_none fun q hq => ?_
    have hr2 : r2 <:+ cs := by
      refine List.IsSuffix.trans ⟨[':'], ?_⟩ hsuf
      rw [heq, List.singleton_append]
    have hsuf2 : q.2 <:+ cs := (fieldM_rest hq).trans hr2
    unfold imspAfterM
    split
    · rename_i r4 heq2
      refine tryCands_eq_none fun u hu => ?_
      have hr4 : r4 <:+ cs := by
        refine List.IsSuffix.trans ⟨[':'], ?_⟩ hsuf2
        rw [heq2, List.singleton_append]
      have hsuf3 : u.2 <:+ cs := (fieldS_rest hu).trans hr4
      unfold imspAfterS
      rw [wsPlus_nil_of_all (noWs_of_suffix hsuf3 h)]
      rfl
    · rfl
  · rfl

theorem fieldH_dig2 {h : Nat} (hh : h < 24) (rest : List Char) :
    fieldH (dig2 h ++ rest) = [(h, rest), (h / 10, digitChar (h % 10) :: rest)] := by
  interval_cases h <;> rfl

theorem fieldM_dig2 {m : Nat} (hm : m < 60) (rest : List Char) :
    fieldM (dig2 m ++ rest) = [(m, rest), (m / 10, digitChar (m % 10) :: rest)] := by
  interval_cases m <;> rfl

theorem fieldS_dig2 {s : Nat} (hs : s < 60) (rest : List Char) :
    fieldS (dig2 s ++ rest) = [(s, rest), (s / 10, digitChar (s % 10) :: rest)] := by
  interval_cases s <;> rfl

theorem fieldS_dig2_nil {s : Nat} (hs : s < 60) :
    fieldS (dig2 s) = [(s, []), (s / 10, [digitChar (s % 10)])] := by
  have := fieldS_dig2 hs []
  simpa using this

theorem dropWhile_eq_self_of_head {l : List Char}
    (h : ∀ c ∈ l.head?, isPyWs c = false) : l.dropWhile isPyWs = l := by
  cases l with
  | nil => rfl
  | cons c rest => simp [List.dropWhile, h c rfl]

theorem pyStrip_eq_self {l : List Char} (h1 : ∀ c ∈ l.head?, isPyWs c = false)
    (h2 : ∀ c ∈ l.getLast?, isPyWs c = false) : pyStrip l = l := by
  unfold pyStrip
  rw [dropWhile_eq_self_of_head h1,
    dropWhile_eq_self_of_head (by rw [List.head?_reverse]; exact h2),
    List.reverse_reverse]

theorem wsPlus_cons_false {c : Char} (hc : isPyWs c = false) (l : List Char) :
    wsPlus (c :: l) = [] := by
  simp [wsPlus, hc]

theorem impAfterI_colon (h : Nat) (r2 : List Char) :
    impAfterI h (':' :: r2) = tryCands (fieldM r2) (impAfterM h) := rfl

theorem imspAfterI_colon (h : Nat) (r2 : List Char) :
    imspAfterI h (':' :: r2) = tryCands (fieldM r2) (imspAfterM h) := rfl

theorem imspAfterM_colon (h m : Nat) (r4 : List Char) :
    imspAfterM h m (':' :: r4) = tryCands (fieldS r4) (imspAfterS h m) := rfl

theorem hmAfterH_colon (h : Nat) (r2 : List Char) :
    hmAfterH h (':' :: r2) = tryCands (fieldM r2) (hmAfterM h) := rfl

theorem hmsAfterH_colon (h : Nat) (r2 : List Char) :
    hmsAfterH h (':' :: r2) = tryCands (fieldM r2) (hmsAfterM h) := rfl

theorem hmsAfterM_colon (h m : Nat) (r4 : List Char) :
    hmsAfterM h m (':' :: r4) = tryCands (fieldS r4) (hmsAfterS h m) := rfl

theorem impAfterI_cons {c : Char} (hne : c ≠ ':') (h : Nat) (l : List Char) :
    impAfterI h (c :: l) = none := by
  unfold impAfterI
  split
  · rename_i r2 heq
    rw [List.cons.injEq] at heq
    exact absurd heq.1 hne
  · rfl

theorem hmAfterH_cons {c : Char} (hne : c ≠ ':') (h : Nat) (l : List Char) :
    hmAfterH h (c :: l) = none := by
  unfold hmAfterH
  split
  · rename_i r2 heq
    rw [List.cons.injEq] at heq
    exact absurd heq.1 hne
  · rfl

theorem hmsAfterH_cons {c : Char} (hne : c ≠ ':') (h : Nat) (l : List Char) :
    hmsAfterH h (c :: l) = none := by
  unfold hmsAfterH
  split
  · rename_i r2 heq
    rw [List.cons.injEq] at heq
    exact absurd heq.1 hne
  · rfl

theorem impAfterM_noWsHead {c : Char} (hc : isPyWs c = false) (h m : Nat)
    (l : List Char) : impAfterM h m (c :: l) = none := by
  unfold impAfterM
  rw [wsPlus_cons_false hc]
  rfl

theorem natDigitsFuel_ne_nil (fuel n : Nat) : natDigitsFuel fuel n ≠ [] := by
  cases fuel with
  | zero => simp [natDigitsFuel]
  | succ f =>
    unfold natDigitsFuel
    split
    · simp
    · simp

theorem natDigits_ne_nil (n : Nat) : natDigits n ≠ [] := natDigitsFuel_ne_nil n n

/-- `%I` on a one-digit rendered hour followed by a colon. -/
theorem fieldI_one_digit {h12 : Nat} (h1 : 1 ≤ h12) (h2 : h12 ≤ 9) (X : List Char) :
    fieldI (natDigits h12 ++ ':' :: X) = [(h12, ':' :: X)] := by
  interval_cases h12 <;> rfl

/-- `%I` on a two-digit rendered hour (10, 11 or 12). -/
theorem fieldI_two_digit {h12 : Nat} (h1 : 10 ≤ h12) (h2 : h12 ≤ 12) (X : List Char) :
    fieldI (natDigits h12 ++ X) = [(h12, X), (1, digitChar (h12 - 10) :: X)] := by
  interval_cases h12 <;> rfl

/-- The 24-hour `"HH:MM:SS"` rendering contains no whitespace. -/
theorem mk24_noWs (h m s : Nat) :
    ∀ c ∈ dig2 h ++ ':' :: (dig2 m ++ ':' :: dig2 s), isPyWs c = false := by
  intro c hc
  simp only [dig2, List.mem_append, List.mem_cons, List.not_mem_nil, or_false] at hc
  rcases hc with (rfl | rfl) | rfl | (rfl | rfl) | rfl | rfl | rfl <;>
    first
      | exact digitChar_not_ws _
      | decide

/-- `"%H:%M"` rejects `"HH:MM:SS"`: the trailing `":SS"` is unconverted. -/
theorem matchHM_mk24 {h m s : Nat} (hh : h < 24) (hm : m < 60) :
    matchHM (dig2 h ++ ':' :: (dig2 m ++ ':' :: dig2 s)) = none := by
  unfold matchHM
  rw [fieldH_dig2 hh]
  refine tryCands_eq_none fun p hp => ?_
  rcases List.mem_cons.mp hp with rfl | hp2
  · show hmAfterH h (':' :: (dig2 m ++ ':' :: dig2 s)) = none
    rw [hmAfterH_colon, fieldM_dig2 hm]
    refine tryCands_eq_none fun q hq => ?_
    rcases List.mem_cons.mp hq with rfl | hq2
    · rfl
    · rcases List.mem_cons.mp hq2 with rfl | hq3
      · rfl
      · cases hq3
  · rcases List.mem_cons.mp hp2 with rfl | hp3
    · exact hmAfterH_cons (digitChar_ne_colon _) _ _
    · cases hp3

/-- `"%H:%M:%S"` accepts `"HH:MM:SS"` and discards the seconds. -/
theorem matchHMS_mk24 {h m s : Nat} (hh : h < 24) (hm : m < 60) (hs : s < 60) :
    matchHMS (dig2 h ++ ':' :: (dig2 m ++ ':' :: dig2 s)) = some (h * 60 + m) := by
  unfold matchHMS
  rw [fieldH_dig2 hh, tryCands_cons]
  have h1 : hmsAfterH h (':' :: (dig2 m ++ ':' :: dig2 s)) = some (h * 60 + m) := by
    rw [hmsAfterH_colon, fieldM_dig2 hm, tryCands_cons]
    have h2 : hmsAfterM h m (':' :: dig2 s) = some (h * 60 + m) := by
      rw [hmsAfterM_colon, fieldS_dig2_nil hs, tryCands_cons]
      rfl
    rw [h2]
  rw [h1]

theorem strptimeChain_mk24 {h m s : Nat} (hh : h < 24) (hm : m < 60) (hs : s < 60) :
    strptimeChain (dig2 h ++ ':' :: (dig2 m ++ ':' :: dig2 s)) = some (h * 60 + m) := by
  unfold strptimeChain
  rw [matchIMp_noWs (mk24_noWs h m s), matchIMSp_noWs (mk24_noWs h m s),
    matchHM_mk24 hh hm, matchHMS_mk24 hh hm hs]

theorem time_to_minutes_of_chain {s : String} {v : Nat}
    (h1 : pyStrip s.data = s.data) (h2 : s.data ≠ [])
    (h3 : strptimeChain s.data = some v) :
    time_to_minutes (.str s) = some (v : Int) := by
  simp [time_to_minutes, h1, h2, h3]

theorem natDigitsFuel_chars (f n : Nat) :
    ∀ c ∈ natDigitsFuel f n, ∃ k, c = digitChar k := by
  induction f generalizing n with
  | zero =>
    intro c hc
    simp [natDigitsFuel] at hc
    exact ⟨n, hc⟩
  | succ f ih =>
    intro c hc
    unfold natDigitsFuel at hc
    split at hc
    · simp at hc
      exact ⟨n, hc⟩
    · simp only [List.mem_append, List.mem_singleton] at hc
      rcases hc with hc | hc
      · exact ih _ c hc
      · exact ⟨n % 10, hc⟩

theorem natDigits_not_ws (n : Nat) : ∀ c ∈ natDigits n, isPyWs c = false := by
  intro c hc
  obtain ⟨k, rfl⟩ := natDigitsFuel_chars n n c hc
  exact digitChar_not_ws k

/-- Value of `time_to_minutes` on a 24-hour `"HH:MM:SS"` rendering. -/
theorem mk24_value {h m s : Nat} (hh : h < 24) (hm : m < 60) (hs : s < 60) :
    time_to_minutes (.str (mk24 h m s)) = some ((h * 60 + m : Nat) : Int) := by
  have hdata : (mk24 h m s).data = dig2 h ++ ':' :: (dig2 m ++ ':' :: dig2 s) := rfl
  have hstrip : pyStrip (mk24 h m s).data = (mk24 h m s).data := by
    apply pyStrip_eq_self
    · intro c hc
      rw [hdata] at hc
      simp [dig2] at hc
      subst hc
      exact digitChar_not_ws _
    · intro c hc
      rw [hdata] at hc
      have hshape : dig2 h ++ ':' :: (dig2 m ++ ':' :: dig2 s) =
          (dig2 h ++ ':' :: (dig2 m ++ [':', digitChar (s / 10)])) ++ [digitChar (s % 10)] := by
        simp [dig2]
      rw [hshape, List.getLast?_concat] at hc
      simp at hc
      subst hc
      exact digitChar_not_ws _
  have hne : (mk24 h m s).data ≠ [] := by
    rw [hdata]
    simp [dig2]
  exact time_to_minutes_of_chain hstrip hne
    (by rw [hdata]; exact strptimeChain_mk24 hh hm hs)

/-- `"%I:%M %p"` rejects the `"H:MM:SS AM"` shape: after the minute the
format requires whitespace, but a colon or a digit follows. -/
theorem impAfterI_colon_dig2 {h m : Nat} (hm : m < 60) (Z : List Char) :
    impAfterI h (':' :: (dig2 m ++ ':' :: Z)) = none := by
  rw [impAfterI_colon, fieldM_dig2 hm]
  refine tryCands_eq_none fun q hq => ?_
  rcases List.mem_cons.mp hq with rfl | hq2
  · exact impAfterM_noWsHead colon_not_ws _ _ _
  · rcases List.mem_cons.mp hq2 with rfl | hq3
    · exact impAfterM_noWsHead (digitChar_not_ws _) _ _ _
    · cases hq3

theorem matchIMp_mk12 {h12 m s : Nat} (h1 : 1 ≤ h12) (h2 : h12 ≤ 12) (hm : m < 60)
    (pm : Bool) :
    matchIMp (natDigits h12 ++ ':' ::
      (dig2 m ++ ':' :: (dig2 s ++ ' ' :: (if pm then ['P', 'M'] else ['A', 'M'])))) =
      none := by
  rcases le_or_lt h12 9 with hle | hgt
  · unfold matchIMp
    rw [fieldI_one_digit h1 hle]
    refine tryCands_eq_none fun p hp => ?_
    rcases List.mem_cons.mp hp with rfl | hp2
    · exact impAfterI_colon_dig2 hm _
    · cases hp2
  · unfold matchIMp
    rw [fieldI_two_digit hgt h2]
    refine tryCands_eq_none fun p hp => ?_
    rcases List.mem_cons.mp hp with rfl | hp2
    · exact impAfterI_colon_dig2 hm _
    · rcases List.mem_cons.mp hp2 with rfl | hp3
      · exact impAfterI_cons (digitChar_ne_colon _) _ _
      · cases hp3

theorem imspAfterI_mk12 {h12 m s : Nat} (hm : m < 60) (hs : s < 60) (pm : Bool) :
    imspAfterI h12 (':' ::
      (dig2 m ++ ':' :: (dig2 s ++ ' ' :: (if pm then ['P', 'M'] else ['A', 'M'])))) =
      some (adjust12 h12 pm * 60 + m) := by
  rw [imspAfterI_colon, fieldM_dig2 hm, tryCands_cons]
  have h2 : imspAfterM h12 m
      (':' :: (dig2 s ++ ' ' :: (if pm then ['P', 'M'] else ['A', 'M']))) =
      some (adjust12 h12 pm * 60 + m) := by
    rw [imspAfterM_colon, fieldS_dig2 hs, tryCands_cons]
    have h3 : imspAfterS h12 m s (' ' :: (if pm then ['P', 'M'] else ['A', 'M'])) =
        some (adjust12 h12 pm * 60 + m) := by
      rcases pm <;> rfl
    rw [h3]
  rw [h2]

theorem matchIMSp_mk12 {h12 m s : Nat} (h1 : 1 ≤ h12) (h2 : h12 ≤ 12) (hm : m < 60)
    (hs : s < 60) (pm : Bool) :
    matchIMSp (natDigits h12 ++ ':' ::
      (dig2 m ++ ':' :: (dig2 s ++ ' ' :: (if pm then ['P', 'M'] else ['A', 'M'])))) =
      some (adjust12 h12 pm * 60 + m) := by
  rcases le_or_lt h12 9 with hle | hgt
  · unfold matchIMSp
    rw [fieldI_one_digit h1 hle, tryCands_cons, imspAfterI_mk12 hm hs pm]
  · unfold matchIMSp
    rw [fieldI_two_digit hgt h2, tryCands_cons, imspAfterI_mk12 hm hs pm]

theorem strptimeChain_mk12 {h12 m s : Nat} (h1 : 1 ≤ h12) (h2 : h12 ≤ 12)
    (hm : m < 60) (hs : s < 60) (pm : Bool) :
    strptimeChain (natDigits h12 ++ ':' ::
      (dig2 m ++ ':' :: (dig2 s ++ ' ' :: (if pm then ['P', 'M'] else ['A', 'M'])))) =
      some (adjust12 h12 pm * 60 + m) := by
  unfold strptimeChain
  rw [matchIMp_mk12 h1 h2 hm pm, matchIMSp_mk12 h1 h2 hm hs pm]

theorem mk12_data (h12 m s : Nat) (pm : Bool) :
    (mk12 h12 m s pm).data = natDigits h12 ++ ':' ::
      (dig2 m ++ ':' :: (dig2 s ++ ' ' :: (if pm then ['P', 'M'] else ['A', 'M']))) := rfl

theorem mk12_strip (h12 m s : Nat) (pm : Bool) :
    pyStrip (mk12 h12 m s pm).data = (mk12 h12 m s pm).data := by
  apply pyStrip_eq_self
  · intro c hc
    rw [mk12_data] at hc
    cases hnd : natDigits h12 with
    | nil => exact absurd hnd (natDigits_ne_nil h12)
    | cons d t =>
      rw [hnd] at hc
      simp at hc
      subst hc
      exact natDigits_not_ws h12 d (by rw [hnd]; exact List.mem_cons_self _ _)
  · intro c hc
    rw [mk12_data] at hc
    rcases pm with _ | _ <;> [
      (have hshape : natDigits h12 ++ ':' ::
          (dig2 m ++ ':' :: (dig2 s ++ ' ' :: (if false then ['P', 'M'] else ['A', 'M']))) =
          (natDigits h12 ++ ':' :: (dig2 m ++ ':' :: (dig2 s ++ [' ', 'A']))) ++ ['M'] := by
        simp [dig2]);
      (have hshape : natDigits h12 ++ ':' ::
          (dig2 m ++ ':' :: (dig2 s ++ ' ' :: (if true then ['P', 'M'] else ['A', 'M']))) =
          (natDigits h12 ++ ':' :: (dig2 m ++ ':' :: (dig2 s ++ [' ', 'P']))) ++ ['M'] := by
        simp [dig2])] <;>
    · rw [hshape, List.getLast?_concat] at hc
      simp at hc
      subst hc
      decide

theorem mk12_ne_nil (h12 m s : Nat) (pm : Bool) : (mk12 h12 m s pm).data ≠ [] := by
  rw [mk12_data]
  simp [natDigits_ne_nil h12]

/-- Value of `time_to_minutes` on a 12-hour `"H:MM:SS AM"`/`"H:MM:SS PM"`
rendering. -/
theorem mk12_value {h12 m s : Nat} (h1 : 1 ≤ h12) (h2 : h12 ≤ 12) (hm : m < 60)
    (hs : s < 60) (pm : Bool) :
    time_to_minutes (.str (mk12 h12 m s pm)) =
      some ((adjust12 h12 pm * 60 + m : Nat) : Int) :=
  time_to_minutes_of_chain (mk12_strip h12 m s pm) (mk12_ne_nil h12 m s pm)
    (by rw [mk12_data]; exact strptimeChain_mk12 h1 h2 hm hs pm)

/-- C10: a seconds component is parsed and then discarded — a structured
time, a 24-hour `"HH:MM:SS"` string, and a 12-hour `"H:MM:SS AM/PM"` string
all yield `hour * 60 + minute`, so inputs differing only in seconds parse
to the same minute value. -/
theorem C10_seconds_discarded :
    (∀ h m s1 s2 : Nat,
        time_to_minutes (.timestamp h m s1) = time_to_minutes (.timestamp h m s2) ∧
        time_to_minutes (.timestamp h m s1) = some ((h : Int) * 60 + m) ∧
        time_to_minutes (.pytime h m s1) = some ((h : Int) * 60 + m))
    ∧ (∀ h m s1 s2 : Nat, h < 24 → m < 60 → s1 < 60 → s2 < 60 →
        time_to_minutes (.str (mk24 h m s1)) = some ((h : Int) * 60 + m) ∧
        time_to_minutes (.str (mk24 h m s1)) = time_to_minutes (.str (mk24 h m s2)))
    ∧ (∀ h12 m s1 s2 : Nat, ∀ pm : Bool,
        1 ≤ h12 → h12 ≤ 12 → m < 60 → s1 < 60 → s2 < 60 →
        time_to_minutes (.str (mk12 h12 m s1 pm)) =
          some (((adjust12 h12 pm : Nat) : Int) * 60 + m) ∧
        time_to_minutes (.str (mk12 h12 m s1 pm)) =
          time_to_minutes (.str (mk12 h12 m s2 pm))) := by
  refine ⟨fun h m s1 s2 => ⟨rfl, rfl, rfl⟩, ?_, ?_⟩
  · intro h m s1 s2 hh hm hs1 hs2
    rw [mk24_value hh hm hs1, mk24_value hh hm hs2]
    refine ⟨?_, rfl⟩
    norm_cast
  · intro h12 m s1 s2 pm hl hr hm hs1 hs2
    rw [mk12_value hl hr hm hs1 pm, mk12_value hl hr hm hs2 pm]
    refine ⟨?_, rfl⟩
    norm_cast

/-! ## The `to_hhmm` / `time_to_minutes` round trip (C4) -/

theorem pad2_eq_dig2 {M : Nat} (hM : M < 60) : pad2 ((M : Nat) : Int) = dig2 M := by
  interval_cases M <;> rfl

theorem impAfterI_hm12 {h12 M : Nat} (hM : M < 60) (pm : Bool) :
    impAfterI h12 (':' :: (dig2 M ++ ' ' :: (if pm then ['P', 'M'] else ['A', 'M']))) =
      some (adjust12 h12 pm * 60 + M) := by
  rw [impAfterI_colon, fieldM_dig2 hM, tryCands_cons]
  have h3 : impAfterM h12 M (' ' :: (if pm then ['P', 'M'] else ['A', 'M'])) =
      some (adjust12 h12 pm * 60 + M) := by
    rcases pm <;> rfl
  rw [h3]

theorem matchIMp_hm12 {h12 M : Nat} (h1 : 1 ≤ h12) (h2 : h12 ≤ 12) (hM : M < 60)
    (pm : Bool) :
    matchIMp (natDigits h12 ++ ':' ::
      (dig2 M ++ ' ' :: (if pm then ['P', 'M'] else ['A', 'M']))) =
      some (adjust12 h12 pm * 60 + M) := by
  rcases le_or_lt h12 9 with hle | hgt
  · unfold matchIMp
    rw [fieldI_one_digit h1 hle, tryCands_cons, impAfterI_hm12 hM pm]
  · unfold matchIMp
    rw [fieldI_two_digit hgt h2, tryCands_cons, impAfterI_hm12 hM pm]

theorem hm12_strip (h12 M : Nat) (pm : Bool) :
    pyStrip (natDigits h12 ++ ':' :: (dig2 M ++ ' ' :: (if pm then ['P', 'M'] else ['A', 'M']))) =
      natDigits h12 ++ ':' :: (dig2 M ++ ' ' :: (if pm then ['P', 'M'] else ['A', 'M'])) := by
  apply pyStrip_eq_self
  · intro c hc
    cases hnd : natDigits h12 with
    | nil => exact absurd hnd (natDigits_ne_nil h12)
    | cons d t =>
      rw [hnd] at hc
      simp at hc
      subst hc
      exact natDigits_not_ws h12 d (by rw [hnd]; exact List.mem_cons_self _ _)
  · intro c hc
    rcases pm with _ | _ <;> [
      (have hshape : natDigits h12 ++ ':' ::
          (dig2 M ++ ' ' :: (if false then ['P', 'M'] else ['A', 'M'])) =
          (natDigits h12 ++ ':' :: (dig2 M ++ [' ', 'A'])) ++ ['M'] := by
        simp [dig2]);
      (have hshape : natDigits h12 ++ ':' ::
          (dig2 M ++ ' ' :: (if true then ['P', 'M'] else ['A', 'M'])) =
          (natDigits h12 ++ ':' :: (dig2 M ++ [' ', 'P'])) ++ ['M'] := by
        simp [dig2])] <;>
    · rw [hshape, List.getLast?_concat] at hc
      simp at hc
      subst hc
      decide

theorem hm12_tm (h12 M : Nat) (pm : Bool) (h1 : 1 ≤ h12) (h2 : h12 ≤ 12)
    (hM : M < 60) :
    time_to_minutes (.str (String.mk (natDigits h12 ++ ':' ::
      (dig2 M ++ ' ' :: (if pm then ['P', 'M'] else ['A', 'M']))))) =
      some ((adjust12 h12 pm * 60 + M : Nat) : Int) := by
  apply time_to_minutes_of_chain
  · exact hm12_strip h12 M pm
  · show natDigits h12 ++ _ ≠ []
    simp [natDigits_ne_nil h12]
  · show strptimeChain (natDigits h12 ++ _) = _
    unfold strptimeChain
    rw [matchIMp_hm12 h1 h2 hM pm]

theorem hm12_tm_am (h12 M : Nat) (h1 : 1 ≤ h12) (h2 : h12 ≤ 12) (hM : M < 60) :
    time_to_minutes (.str (String.mk (natDigits h12 ++ ':' ::
      (dig2 M ++ ' ' :: ['A', 'M'])))) =
      some ((adjust12 h12 false * 60 + M : Nat) : Int) := by
  have := hm12_tm h12 M false h1 h2 hM
  simpa using this

theorem hm12_tm_pm (h12 M : Nat) (h1 : 1 ≤ h12) (h2 : h12 ≤ 12) (hM : M < 60) :
    time_to_minutes (.str (String.mk (natDigits h12 ++ ':' ::
      (dig2 M ++ ' ' :: ['P', 'M'])))) =
      some ((adjust12 h12 true * 60 + M : Nat) : Int) := by
  have := hm12_tm h12 M true h1 h2 hM
  simpa using this

theorem C10_seconds_discarded_witness :
    time_to_minutes (.timestamp 9 30 45) = some 570 ∧
      ((9 : Nat) < 24 ∧ (30 : Nat) < 60 ∧ (45 : Nat) < 60 ∧ (10 : Nat) < 60 ∧
        time_to_minutes (.str (mk24 9 30 45)) = some ((9 : Int) * 60 + 30) ∧
        time_to_minutes (.str (mk24 9 30 45)) = time_to_minutes (.str (mk24 9 30 10))) ∧
      time_to_minutes (.str (mk12 7 5 59 true)) =
        some (((adjust12 7 true : Nat) : Int) * 60 + 5) :=
  ⟨rfl,
    ⟨by decide, by decide, by decide, by decide,
      (C10_seconds_discarded.2.1 9 30 45 10 (by decide) (by decide) (by decide)
        (by decide)).1,
      (C10_seconds_discarded.2.1 9 30 45 10 (by decide) (by decide) (by decide)
        (by decide)).2⟩,
    (C10_seconds_discarded.2.2 7 5 59 30 true (by decide) (by decide) (by decide)
      (by decide) (by decide)).1⟩

/-- C4: for every minute value in `[0, 1440)`, parsing the string produced
by `to_hhmm` yields the same value back — `time_to_minutes` is a left
inverse of `to_hhmm` on all values the formatter produces, the `"Invalid"`
sentinel (the output for `None`) being the sole exception. -/
theorem C4_roundtrip (m : Int) (h0 : 0 ≤ m) (h1 : m < 1440) :
    time_to_minutes (.str (to_hhmm (some m))) = some m := by
  obtain ⟨n, rfl⟩ : ∃ n : Nat, m = ((n : Nat) : Int) := ⟨m.toNat, by omega⟩
  have hn : n < 1440 := by exact_mod_cast h1
  obtain ⟨H, M, hM, rfl⟩ : ∃ H M : Nat, M < 60 ∧ n = 60 * H + M :=
    ⟨n / 60, n % 60, by omega, by omega⟩
  have hH : H < 24 := by omega
  have e1 : Int.fdiv ((60 * H + M : Nat) : Int) 60 = ((H : Nat) : Int) := by
    rw [Int.fdiv_eq_ediv _ (by norm_num)]
    omega
  have e2 : Int.fmod ((60 * H + M : Nat) : Int) 60 = ((M : Nat) : Int) := by
    rw [Int.fmod_eq_emod _ (by norm_num)]
    omega
  have hto : to_hhmm (some ((60 * H + M : Nat) : Int)) = String.mk
      (intDigits (if 1 ≤ Int.fdiv ((60 * H + M : Nat) : Int) 60 ∧
          Int.fdiv ((60 * H + M : Nat) : Int) 60 ≤ 12 then
          Int.fdiv ((60 * H + M : Nat) : Int) 60
        else if Int.fdiv ((60 * H + M : Nat) : Int) 60 > 12 then
          Int.fdiv ((60 * H + M : Nat) : Int) 60 - 12 else 12) ++ ':' ::
        (pad2 (Int.fmod ((60 * H + M : Nat) : Int) 60) ++ ' ' ::
          (if Int.fdiv ((60 * H + M : Nat) : Int) 60 < 12 then ['A', 'M'] else ['P', 'M']))) := rfl
  rw [hto, e1, e2, pad2_eq_dig2 hM]
  interval_cases H
  · norm_num
    rw [show intDigits (12 : Int) = natDigits 12 from rfl]
    rw [hm12_tm_am 12 M (by decide) (by decide) hM]
    simp [adjust12]
  · norm_num
    rw [show intDigits (1 : Int) = natDigits 1 from rfl]
    rw [hm12_tm_am 1 M (by decide) (by decide) hM]
    simp [adjust12]
  · norm_num
    rw [show intDigits (2 : Int) = natDigits 2 from rfl]
    rw [hm12_tm_am 2 M (by decide) (by decide) hM]
    simp [adjust12]
  · norm_num
    rw [show intDigits (3 : Int) = natDigits 3 from rfl]
    rw [hm12_tm_am 3 M (by decide) (by decide) hM]
    simp [adjust12]
  · norm_num
    rw [show intDigits (4 : Int) = natDigits 4 from rfl]
    rw [hm12_tm_am 4 M (by decide) (by decide) hM]
    simp [adjust12]
  · norm_num
    rw [show intDigits (5 : Int) = natDigits 5 from rfl]
    rw [hm12_tm_am 5 M (by decide) (by decide) hM]
    simp [adjust12]
  · norm_num
    rw [show intDigits (6 : Int) = natDigits 6 from rfl]
    rw [hm12_tm_am 6 M (by decide) (by decide) hM]
    simp [adjust12]
  · norm_num
    rw [show intDigits (7 : Int) = natDigits 7 from rfl]
    rw [hm12_tm_am 7 M (by decide) (by decide) hM]
    simp [adjust12]
  · norm_num
    rw [show intDigits (8 : Int) = natDigits 8 from rfl]
    rw [hm12_tm_am 8 M (by decide) (by decide) hM]
    simp [adjust12]
  · norm_num
    rw [show intDigits (9 : Int) = natDigits 9 from rfl]
    rw [hm12_tm_am 9 M (by decide) (by decide) hM]
    simp [adjust12]
  · norm_num
    rw [show intDigits (10 : Int) = natDigits 10 from rfl]
    rw [hm12_tm_am 10 M (by decide) (by decide) hM]
    simp [adjust12]
  · norm_num
    rw [show intDigits (11 : Int) = natDigits 11 from rfl]
    rw [hm12_tm_am 11 M (by decide) (by decide) hM]
    simp [adjust12]
  · norm_num
    rw [show intDigits (12 : Int) = natDigits 12 from rfl]
    rw [hm12_tm_pm 12 M (by decide) (by decide) hM]
    simp [adjust12]
  · norm_num
    rw [show intDigits (1 : Int) = natDigits 1 from rfl]
    rw [hm12_tm_pm 1 M (by decide) (by decide) hM]
    simp [adjust12]
  · norm_num
    rw [show intDigits (2 : Int) = natDigits 2 from rfl]
    rw [hm12_tm_pm 2 M (by decide) (by decide) hM]
    simp [adjust12]
  · norm_num
    rw [show intDigits (3 : Int) = natDigits 3 from rfl]
    rw [hm12_tm_pm 3 M (by decide) (by decide) hM]
    simp [adjust12]
  · norm_num
    rw [show intDigits (4 : Int) = natDigits 4 from rfl]
    rw [hm12_tm_pm 4 M (by decide) (by decide) hM]
    simp [adjust12]
  · norm_num
    rw [show intDigits (5 : Int) = natDigits 5 from rfl]
    rw [hm12_tm_pm 5 M (by decide) (by decide) hM]
    simp [adjust12]
  · norm_num
    rw [show intDigits (6 : Int) = natDigits 6 from rfl]
    rw [hm12_tm_pm 6 M (by decide) (by decide) hM]
    simp [adjust12]
  · norm_num
    rw [show intDigits (7 : Int) = natDigits 7 from rfl]
    rw [hm12_tm_pm 7 M (by decide) (by decide) hM]
    simp [adjust12]
  · norm_num
    rw [show intDigits (8 : Int) = natDigits 8 from rfl]
    rw [hm12_tm_pm 8 M (by decide) (by decide) hM]
    simp [adjust12]
  · norm_num
    rw [show intDigits (9 : Int) = natDigits 9 from rfl]
    rw [hm12_tm_pm 9 M (by decide) (by decide) hM]
    simp [adjust12]
  · norm_num
    rw [show intDigits (10 : Int) = natDigits 10 from rfl]
    rw [hm12_tm_pm 10 M (by decide) (by decide) hM]
    simp [adjust12]
  · norm_num
    rw [show intDigits (11 : Int) = natDigits 11 from rfl]
    rw [hm12_tm_pm 11 M (by decide) (by decide) hM]
    simp [adjust12]

theorem C4_roundtrip_witness :
    (0 : Int) ≤ 545 ∧ (545 : Int) < 1440 ∧
      time_to_minutes (.str (to_hhmm (some 545))) = some 545 :=
  ⟨by decide, by decide, C4_roundtrip 545 (by decide) (by decide)⟩


/-! ### C3: the alternative-slot search -/

theorem altLattice_eq_findSlots (bm : List BusyMap) (day : String) (duration ws we : Int) :
    altLattice bm day duration ws we =
      findSlots bm day duration (max 0 (ws - 120)) (min (24 * 60) (we + 120)) := rfl

theorem pairwise_altLattice (bm : List BusyMap) (day : String) (duration ws we : Int) :
    (altLattice bm day duration ws we).Pairwise (fun a b => a.1 < b.1) := by
  rw [altLattice_eq_findSlots]
  exact pairwise_findSlots bm day duration _ _

theorem candidates_eq (bm : List BusyMap) (day : String) (duration ws we : Int) :
    ((pyRange15 (max 0 (ws - 120)) (min (24 * 60) (we + 120) - duration + 1)).filterMap
      fun start =>
        if slotConflict bm day start (start + duration) then none
        else some (|((start : Rat) + ((start + duration : Int) : Rat)) / 2 -
            ((ws : Rat) + (we : Rat)) / 2|, start, start + duration)) =
      (altLattice bm day duration ws we).map fun p => (midDist ws we p.1 p.2, p) := by
  unfold altLattice
  generalize pyRange15 (max 0 (ws - 120)) (min (24 * 60) (we + 120) - duration + 1) = l
  induction l with
  | nil => simp
  | cons a t ih =>
    rw [List.filterMap_cons, List.filterMap_cons]
    by_cases hc : slotConflict bm day a (a + duration) = true
    · rw [if_pos hc, if_pos hc]
      exact ih
    · rw [if_neg hc, if_neg hc, List.map_cons, ih]
      rfl

theorem findAlternatives_eq (bm : List BusyMap) (day : String) (duration ws we : Int) :
    findAlternatives bm day duration ws we =
      List.insertionSort (fun a b => a.1 ≤ b.1)
        (((List.insertionSort (fun a b => a.1 ≤ b.1)
            ((altLattice bm day duration ws we).map fun p =>
              (midDist ws we p.1 p.2, p))).take 5).map fun x => x.2) := by
  simp only [findAlternatives]
  rw [candidates_eq bm day duration ws we]

theorem orderedInsert_stable (a : Rat × Int × Int) (l : List (Rat × Int × Int))
    (hl : l.Pairwise fun x y => x.1 < y.1 ∨ (x.1 = y.1 ∧ x.2.1 < y.2.1))
    (ha : ∀ x ∈ l, a.2.1 < x.2.1) :
    (List.orderedInsert (fun x y => x.1 ≤ y.1) a l).Pairwise
      fun x y => x.1 < y.1 ∨ (x.1 = y.1 ∧ x.2.1 < y.2.1) := by
  induction l with
  | nil => simp
  | cons b bs ih =>
    rcases List.pairwise_cons.mp hl with ⟨hb, hbs⟩
    rw [List.orderedInsert]
    by_cases hab : a.1 ≤ b.1
    · rw [if_pos hab]
      refine List.pairwise_cons.mpr ⟨fun x hx => ?_, hl⟩
      have hax : a.2.1 < x.2.1 := ha x hx
      have halex : a.1 ≤ x.1 := by
        rcases List.mem_cons.mp hx with rfl | hx'
        · exact hab
        · rcases hb x hx' with h | ⟨h, _⟩
          · exact le_trans hab (le_of_lt h)
          · exact le_trans hab (le_of_eq h)
      rcases lt_or_eq_of_le halex with h | h
      · exact Or.inl h
      · exact Or.inr ⟨h, hax⟩
    · rw [if_neg hab]
      refine List.pairwise_cons.mpr
        ⟨fun y hy => ?_, ih hbs (fun x hx => ha x (List.mem_cons_of_mem b hx))⟩
      rcases (List.mem_orderedInsert _).mp hy with rfl | hy'
      · exact Or.inl (lt_of_not_le hab)
      · exact hb y hy'

theorem insertionSort_stable (l : List (Rat × Int × Int))
    (h : l.Pairwise fun x y => x.2.1 < y.2.1) :
    (List.insertionSort (fun x y => x.1 ≤ y.1) l).Pairwise
      fun x y => x.1 < y.1 ∨ (x.1 = y.1 ∧ x.2.1 < y.2.1) := by
  induction l with
  | nil => simp
  | cons a t ih =>
    rcases List.pairwise_cons.mp h with ⟨ha, ht⟩
    rw [List.insertionSort]
    refine orderedInsert_stable a _ (ih ht) (fun x hx => ?_)
    exact ha x ((List.mem_insertionSort _).mp hx)

/-- C3: the alternative search runs only when the primary search is empty
(app.py line 203 `if not result_list:`); it enumerates 15-minute-step
candidates over `[max(0, ws-120), min(1440, we+120) - duration]` under the
same conflict rule (the lattice `altLattice`); it keeps exactly
`min 5 (number of conflict-free candidates)` slots; it presents them in
strictly ascending start order; every presented slot is a conflict-free
lattice candidate; and the kept slots are optimal: any lattice candidate
that is not presented has strictly larger exact midpoint distance, or equal
distance and a later start (ties broken by scan order, as Python's stable
sort does). -/
theorem C3_alternatives (bm : List BusyMap) (day : String) (duration ws we : Int) :
    ((findSlots bm day duration ws we ≠ [] →
        (processSearch bm day duration ws we).2 = []) ∧
      (findSlots bm day duration ws we = [] →
        (processSearch bm day duration ws we).2 = findAlternatives bm day duration ws we)) ∧
    (∀ s e : Int, (s, e) ∈ altLattice bm day duration ws we ↔
      (∃ k : Nat, s = max 0 (ws - 120) + 15 * k) ∧
        s + duration ≤ min 1440 (we + 120) ∧ e = s + duration ∧
        slotConflict bm day s (s + duration) = false) ∧
    (findAlternatives bm day duration ws we).length =
      min 5 (altLattice bm day duration ws we).length ∧
    (findAlternatives bm day duration ws we).Pairwise (fun a b => a.1 < b.1) ∧
    (∀ p ∈ findAlternatives bm day duration ws we,
      p ∈ altLattice bm day duration ws we) ∧
    (∀ p ∈ findAlternatives bm day duration ws we,
      ∀ q ∈ altLattice bm day duration ws we,
        q ∉ findAlternatives bm day duration ws we →
          midDist ws we p.1 p.2 < midDist ws we q.1 q.2 ∨
            (midDist ws we p.1 p.2 = midDist ws we q.1 q.2 ∧ p.1 < q.1)) := by
  set L := altLattice bm day duration ws we with hL
  set cands := L.map (fun p => (midDist ws we p.1 p.2, p)) with hcands
  set S := List.insertionSort (fun a b : Rat × Int × Int => a.1 ≤ b.1) cands with hS
  set T := (S.take 5).map (fun x : Rat × Int × Int => x.2) with hT
  set A := findAlternatives bm day duration ws we with hA
  have hfa : A = List.insertionSort (fun a b : Int × Int => a.1 ≤ b.1) T := by
    rw [hA, hT, hS, hcands, hL]
    exact findAlternatives_eq bm day duration ws we
  have hLpair : L.Pairwise (fun a b => a.1 < b.1) := by
    rw [hL]; exact pairwise_altLattice bm day duration ws we
  have hcpair : cands.Pairwise (fun x y => x.2.1 < y.2.1) := by
    rw [hcands]
    exact List.pairwise_map.mpr (hLpair.imp fun h => h)
  have hSperm : S.Perm cands := by
    rw [hS]; exact List.perm_insertionSort _ _
  have hSpair : S.Pairwise (fun x y => x.1 < y.1 ∨ (x.1 = y.1 ∧ x.2.1 < y.2.1)) := by
    rw [hS]; exact insertionSort_stable cands hcpair
  have hmemS : ∀ x ∈ S, x.1 = midDist ws we x.2.1 x.2.2 ∧ x.2 ∈ L := by
    intro x hx
    have hx' : x ∈ cands := hSperm.mem_iff.mp hx
    rw [hcands] at hx'
    obtain ⟨p, hp, hpx⟩ := List.mem_map.mp hx'
    subst hpx
    exact ⟨rfl, hp⟩
  refine ⟨⟨fun hne => ?_, fun heq => ?_⟩, fun s e => ?_, ?_, ?_, ?_, ?_⟩
  · simp [processSearch, hne]
  · simp only [processSearch, heq, if_pos]
  · rw [hL, altLattice_eq_findSlots]
    rw [show ((1440 : Int)) = 24 * 60 from by norm_num]
    exact mem_findSlots
  · rw [hfa, (List.perm_insertionSort _ T).length_eq, hT, List.length_map,
      List.length_take, hSperm.length_eq, hcands, List.length_map]
  · have h6 : (T.map Prod.fst).Nodup := by
      have h1 : T.map Prod.fst = (S.take 5).map (fun x : Rat × Int × Int => x.2.1) := by
        rw [hT, List.map_map]
        rfl
      have h2 : ((S.take 5).map (fun x : Rat × Int × Int => x.2.1)).Sublist
          (S.map fun x : Rat × Int × Int => x.2.1) :=
        (List.take_sublist 5 S).map _
      have h3 : (S.map fun x : Rat × Int × Int => x.2.1).Perm
          (cands.map fun x : Rat × Int × Int => x.2.1) :=
        hSperm.map _
      have h4 : cands.map (fun x : Rat × Int × Int => x.2.1) = L.map Prod.fst := by
        rw [hcands, List.map_map]
        rfl
      have h5a : (L.map Prod.fst).Pairwise (fun a b : Int => a < b) :=
        List.pairwise_map.mpr (hLpair.imp fun h => h)
      have h5 : (L.map Prod.fst).Nodup := h5a.imp fun h => ne_of_lt h
      rw [h1]
      exact List.Nodup.sublist h2 (h3.nodup_iff.mpr (h4 ▸ h5))
    rw [hfa]
    have hA_le : (List.insertionSort (fun a b : Int × Int => a.1 ≤ b.1) T).Pairwise
        (fun a b : Int × Int => a.1 ≤ b.1) := List.sorted_insertionSort _ T
    have hpermA : (List.insertionSort (fun a b : Int × Int => a.1 ≤ b.1) T).Perm T :=
      List.perm_insertionSort _ T
    have hA_nodup : ((List.insertionSort (fun a b : Int × Int => a.1 ≤ b.1) T).map
        Prod.fst).Nodup := (hpermA.map Prod.fst).nodup_iff.mpr h6
    have hA_ne : (List.insertionSort (fun a b : Int × Int => a.1 ≤ b.1) T).Pairwise
        (fun a b : Int × Int => a.1 ≠ b.1) := List.pairwise_map.mp hA_nodup
    exact (hA_le.and hA_ne).imp fun h => lt_of_le_of_ne h.1 h.2
  · intro p hp
    rw [hfa] at hp
    have hp1 : p ∈ T := (List.mem_insertionSort _).mp hp
    rw [hT] at hp1
    obtain ⟨x, hx5, hxe⟩ := List.mem_map.mp hp1
    have hxS : x ∈ S := (List.take_sublist 5 S).subset hx5
    obtain ⟨-, hxL⟩ := hmemS x hxS
    rw [← hxe]
    exact hxL
  · intro p hp q hq hqA
    have hqc : (midDist ws we q.1 q.2, q) ∈ cands := by
      rw [hcands]
      exact List.mem_map.mpr ⟨q, hq, rfl⟩
    have hqS : (midDist ws we q.1 q.2, q) ∈ S := hSperm.mem_iff.mpr hqc
    have hsplit := List.take_append_drop 5 S
    have hpairTD : ∀ x ∈ S.take 5, ∀ y ∈ S.drop 5,
        x.1 < y.1 ∨ (x.1 = y.1 ∧ x.2.1 < y.2.1) := by
      have hsp := hSpair
      rw [← hsplit] at hsp
      exact (List.pairwise_append.mp hsp).2.2
    have hqd : (midDist ws we q.1 q.2, q) ∈ S.drop 5 := by
      rcases List.mem_append.mp (by rw [hsplit]; exact hqS) with h | h
      · exfalso
        apply hqA
        rw [hfa]
        refine (List.mem_insertionSort _).mpr ?_
        rw [hT]
        exact List.mem_map.mpr ⟨_, h, rfl⟩
      · exact h
    rw [hfa] at hp
    have hp1 : p ∈ T := (List.mem_insertionSort _).mp hp
    rw [hT] at hp1
    obtain ⟨x, hx5, hxe⟩ := List.mem_map.mp hp1
    have hxS : x ∈ S := (List.take_sublist 5 S).subset hx5
    obtain ⟨hx1, -⟩ := hmemS x hxS
    have hslt := hpairTD x hx5 _ hqd
    rw [← hxe]
    rcases hslt with h | ⟨h1, h2⟩
    · left
      rw [← hx1]
      exact h
    · right
      exact ⟨by rw [← hx1]; exact h1, h2⟩

theorem C3_alternatives_witness :
    (processSearch [[("MONDAY", [(0, 1440)])]] "MONDAY" 30 540 600).2 =
      findAlternatives [[("MONDAY", [(0, 1440)])]] "MONDAY" 30 540 600 :=
  (C3_alternatives [[("MONDAY", [(0, 1440)])]] "MONDAY" 30 540 600).1.2 (by decide)


end SMS
